import Mathlib

/-!
Shallow embedding of the livestream booking/inventory engine and the
response-composition engine of `livestream_handler.go` (bootjp/isucon13,
`isupipe` schema).

The relational state (MySQL tables) is embedded as lists of rows in insertion
order.  SQL statements are translated one by one: `SELECT ... WHERE` becomes
`List.filter`, a `GetContext` (single-row query) takes the first matching row
(`List.find?`), `ORDER BY` becomes an insertion sort by the ordered column,
`UPDATE` becomes `List.map`, and `INSERT` on an `AUTO_INCREMENT` table appends
a row carrying the table's next id counter.  A `JOIN` is a nested iteration
producing the multiset of matching combinations; its pre-`ORDER BY` row order
is unspecified by SQL, so the embedding fixes a nested-loop order.

Each handler runs inside one transaction: the handler body computes on a
transaction-local state and the wrapper commits that state on success or keeps
the original state on any error (`defer tx.Rollback()` in the source).  The
fallible storage calls of the booking transaction additionally take a fault
oracle so that rollback-on-failure can be stated for every failure point.
-/

/-! ## Table rows (schema `isupipe`) -/

/-- Row of `reservation_slots` (`ReservationSlotModel`): remaining capacity
`slot` for the bucket `[startAt, endAt]`. -/
structure SlotRow where
  id : Int
  slot : Int
  startAt : Int
  endAt : Int
  deriving DecidableEq

/-- Row of `livestreams` (`LivestreamModel`). -/
structure LivestreamRow where
  id : Int
  userId : Int
  title : String
  description : String
  playlistUrl : String
  thumbnailUrl : String
  startAt : Int
  endAt : Int
  deriving DecidableEq

/-- Row of `livestream_tags` (`LivestreamTagModel`); `id` is the
auto-increment association id. -/
structure LivestreamTagRow where
  id : Int
  livestreamId : Int
  tagId : Int
  deriving DecidableEq

/-- Row of `tags` (`TagModel`). -/
structure TagRow where
  id : Int
  name : String
  deriving DecidableEq

/-- Row of `users` (`UserModel`). -/
structure UserRow where
  id : Int
  name : String
  displayName : String
  password : String
  description : String
  deriving DecidableEq

/-- Row of `themes` (`ThemeModel`). -/
structure ThemeRow where
  id : Int
  userId : Int
  darkMode : Bool
  deriving DecidableEq

/-- Row of `icons`; `image` is the raw byte content. -/
structure IconRow where
  id : Int
  userId : Int
  image : List Nat
  deriving DecidableEq

/-- The database state.  `nextLivestreamId` and `nextLivestreamTagId` are the
auto-increment counters of `livestreams` and `livestream_tags`. -/
structure DB where
  reservationSlots : List SlotRow
  livestreams : List LivestreamRow
  livestreamTags : List LivestreamTagRow
  tags : List TagRow
  users : List UserRow
  themes : List ThemeRow
  icons : List IconRow
  nextLivestreamId : Int
  nextLivestreamTagId : Int
  deriving DecidableEq

/-! ## Response (read-model) types, as in the Go structs -/

/-- The `Theme` response struct. -/
structure Theme where
  id : Int
  darkMode : Bool
  deriving DecidableEq

/-- The `User` response struct composed by the identity collaborator. -/
structure User where
  id : Int
  name : String
  displayName : String
  description : String
  theme : Theme
  iconHash : String
  deriving DecidableEq

/-- The `Tag` response struct. -/
structure Tag where
  id : Int
  name : String
  deriving DecidableEq

/-- The `Livestream` response aggregate. -/
structure Livestream where
  id : Int
  owner : User
  title : String
  description : String
  playlistUrl : String
  thumbnailUrl : String
  tags : List Tag
  startAt : Int
  endAt : Int
  deriving DecidableEq

/-- Environment of the process: the fallback icon file content and the hash
used for `IconHash` (`fmt.Sprintf("%x", sha256.Sum256(image))` in the source;
the composition theorems hold for an arbitrary hash function). -/
structure Env where
  fallbackImage : List Nat
  iconHash : List Nat → String

/-- The `ReserveLivestreamRequest` body. -/
structure ReserveReq where
  tags : List Int
  title : String
  description : String
  playlistUrl : String
  thumbnailUrl : String
  startAt : Int
  endAt : Int
  deriving DecidableEq

/-! ## Reservation term -/

/-- Unix seconds of `time.Date(2023, 11, 25, 1, 0, 0, 0, time.UTC)`. -/
def termStartAt : Int := 1700874000

/-- Unix seconds of `time.Date(2024, 11, 25, 1, 0, 0, 0, time.UTC)`. -/
def termEndAt : Int := 1732496400

/-! ## Error values -/

/-- Errors surfaced by `reserveLivestreamHandler`.  `badTimeRange` is the
400 "bad reservation time range" rejection, `capacityExceeded` the 400
rejection printed with the requested range, `internal` any 500. -/
inductive RsvErr where
  | badTimeRange
  | capacityExceeded (startAt endAt : Int)
  | internal (msg : String)
  deriving DecidableEq

/-- Error of a single-row query that found no row (`sql.ErrNoRows`). -/
inductive DBErr where
  | noRows
  deriving DecidableEq

/-- Errors surfaced by `searchLivestreamsHandler`. -/
inductive SearchErr where
  | badRequest (msg : String)
  | internal (msg : String)
  deriving DecidableEq

/-- Errors surfaced by `getLivestreamHandler`. -/
inductive GetErr where
  | notFound
  | internal (msg : String)
  deriving DecidableEq

/-! ## Fault oracle

Which storage calls of one booking transaction fail.  `countFail i` is the
capacity re-query for the i-th locked slot, `tagInsertFail i` the insert of
the i-th requested tag.  `noFault` is the run where the storage engine
reports no error. -/

structure FaultOracle where
  beginFail : Bool
  slotSelectFail : Bool
  countFail : Nat → Bool
  updateFail : Bool
  insertFail : Bool
  lastIdFail : Bool
  tagInsertFail : Nat → Bool
  fillFail : Bool
  commitFail : Bool

/-- The oracle with no storage failure. -/
def noFault : FaultOracle :=
  { beginFail := false, slotSelectFail := false, countFail := fun _ => false,
    updateFail := false, insertFail := false, lastIdFail := false,
    tagInsertFail := fun _ => false, fillFail := false, commitFail := false }

/-! ## Response composition (single-item mode) -/

/-- Modelled from the spec: `fillUserResponse` lives in `user_handler.go`,
which is not among the given sources.  Per spec §4.3 the identity lookup
"composes theme and an icon content hash"; the fields mirror the batched user
query of `searchLivestreamsHandler` (users joined with their theme, icon
content hashed, fallback image when the user has no icon row). -/
def fillUserResponse (env : Env) (db : DB) (u : UserRow) : Except DBErr User :=
  match db.themes.find? fun th => th.userId == u.id with
  | none => .error .noRows
  | some th =>
      let image := match db.icons.find? fun ic => ic.userId == u.id with
        | none => env.fallbackImage
        | some ic => ic.image
      .ok { id := u.id, name := u.name, displayName := u.displayName,
            description := u.description,
            theme := { id := th.id, darkMode := th.darkMode },
            iconHash := env.iconHash image }

/-- The tag-resolution loop of `fillLivestreamResponse`: for each association
row, `SELECT * FROM tags WHERE id = ?` and build the `Tag` in loop order. -/
def resolveTags (db : DB) : List LivestreamTagRow → Except DBErr (List Tag)
  | [] => .ok []
  | lt :: rest =>
      match db.tags.find? fun t => t.id == lt.tagId with
      | none => .error .noRows
      | some t =>
          match resolveTags db rest with
          | .error e => .error e
          | .ok ts => .ok ({ id := t.id, name := t.name } :: ts)

/-- `fillLivestreamResponse`: owner via the identity lookup, association rows
via `SELECT * FROM livestream_tags WHERE livestream_id = ?` (no ORDER BY: rows
come back in table order), each resolved against `tags`. -/
def fillLivestreamResponse (env : Env) (db : DB) (m : LivestreamRow) :
    Except DBErr Livestream :=
  match db.users.find? fun u => u.id == m.userId with
  | none => .error .noRows
  | some ownerModel =>
      match fillUserResponse env db ownerModel with
      | .error e => .error e
      | .ok owner =>
          match resolveTags db (db.livestreamTags.filter fun lt => lt.livestreamId == m.id) with
          | .error e => .error e
          | .ok tags =>
              .ok { id := m.id, owner := owner, title := m.title, tags := tags,
                    description := m.description, playlistUrl := m.playlistUrl,
                    thumbnailUrl := m.thumbnailUrl, startAt := m.startAt, endAt := m.endAt }

/-! ## Booking (`reserveLivestreamHandler`) -/

/-- Rows of `SELECT * FROM reservation_slots WHERE start_at >= ? AND
end_at <= ? FOR UPDATE` with parameters `(startAt, endAt)`. -/
def coveredSlots (db : DB) (startAt endAt : Int) : List SlotRow :=
  db.reservationSlots.filter fun r => decide (startAt ≤ r.startAt ∧ r.endAt ≤ endAt)

/-- The per-slot capacity check loop: for each locked slot re-query
`SELECT slot FROM reservation_slots WHERE start_at = ? AND end_at = ?`
(first matching row) and reject when the remaining capacity is `< 1`. -/
def checkSlots (o : FaultOracle) (db : DB) (startAt endAt : Int) :
    Nat → List SlotRow → Except RsvErr Unit
  | _, [] => .ok ()
  | i, slot :: rest =>
      if o.countFail i then .error (.internal "failed to get reservation_slots")
      else
        match db.reservationSlots.find? fun r =>
            r.startAt == slot.startAt && r.endAt == slot.endAt with
        | none => .error (.internal "failed to get reservation_slots")
        | some r =>
            if r.slot < 1 then .error (.capacityExceeded startAt endAt)
            else checkSlots o db startAt endAt (i + 1) rest

/-- `UPDATE reservation_slots SET slot = slot - 1 WHERE start_at >= ? AND
end_at <= ?`. -/
def decrementSlots (db : DB) (startAt endAt : Int) : DB :=
  { db with reservationSlots := db.reservationSlots.map fun r =>
      if startAt ≤ r.startAt ∧ r.endAt ≤ endAt then { r with slot := r.slot - 1 } else r }

/-- The livestream row inserted by a booking; its id is the auto-increment
value returned by `LastInsertId`. -/
def newLsRow (db : DB) (userID : Int) (req : ReserveReq) : LivestreamRow :=
  { id := db.nextLivestreamId, userId := userID, title := req.title,
    description := req.description, playlistUrl := req.playlistUrl,
    thumbnailUrl := req.thumbnailUrl, startAt := req.startAt, endAt := req.endAt }

/-- One `INSERT INTO livestream_tags (livestream_id, tag_id) VALUES (?, ?)`. -/
def insertTagRow (db : DB) (lsid tid : Int) : DB :=
  { db with
    livestreamTags := db.livestreamTags ++
      [{ id := db.nextLivestreamTagId, livestreamId := lsid, tagId := tid }],
    nextLivestreamTagId := db.nextLivestreamTagId + 1 }

/-- The tag-insertion loop over `req.Tags`, in request order. -/
def insertTagsLoop (o : FaultOracle) (lsid : Int) :
    Nat → DB → List Int → Except RsvErr DB
  | _, db, [] => .ok db
  | i, db, tid :: rest =>
      if o.tagInsertFail i then .error (.internal "failed to insert livestream tag")
      else insertTagsLoop o lsid (i + 1) (insertTagRow db lsid tid) rest

/-- Body of the booking transaction, in source order: term-window validation,
locked slot select, per-slot capacity check, slot decrement, livestream
insert, tag inserts, response composition. -/
def reserveTx (o : FaultOracle) (env : Env) (db : DB) (userID : Int) (req : ReserveReq) :
    Except RsvErr (Livestream × DB) :=
  if termEndAt ≤ req.startAt ∨ req.endAt ≤ termStartAt then
    .error .badTimeRange
  else if o.slotSelectFail then
    .error (.internal "failed to get reservation_slots")
  else
    match checkSlots o db req.startAt req.endAt 0 (coveredSlots db req.startAt req.endAt) with
    | .error e => .error e
    | .ok _ =>
        if o.updateFail then .error (.internal "failed to update reservation_slot")
        else
          let db1 := decrementSlots db req.startAt req.endAt
          if o.insertFail then .error (.internal "failed to insert livestream")
          else
            let row := newLsRow db1 userID req
            let db2 := { db1 with livestreams := db1.livestreams ++ [row],
                                  nextLivestreamId := db1.nextLivestreamId + 1 }
            if o.lastIdFail then .error (.internal "failed to get last inserted livestream id")
            else
              match insertTagsLoop o row.id 0 db2 req.tags with
              | .error e => .error e
              | .ok db3 =>
                  if o.fillFail then .error (.internal "failed to fill livestream")
                  else
                    match fillLivestreamResponse env db3 row with
                    | .error _ => .error (.internal "failed to fill livestream")
                    | .ok ls => .ok (ls, db3)

/-- `reserveLivestreamHandler`: begin a transaction, run the body, commit on
success; every error path returns with the transaction rolled back
(`defer tx.Rollback()`), leaving the stored state unchanged.  Returns the
response and the state after the request. -/
def reserve (o : FaultOracle) (env : Env) (db : DB) (userID : Int) (req : ReserveReq) :
    Except RsvErr Livestream × DB :=
  if o.beginFail then (.error (.internal "failed to begin transaction"), db)
  else
    match reserveTx o env db userID req with
    | .error e => (.error e, db)
    | .ok (ls, txDB) =>
        if o.commitFail then (.error (.internal "failed to commit"), db)
        else (.ok ls, txDB)

/-- Tests whether a booking response is the capacity rejection. -/
def isCapacityRejection : Except RsvErr Livestream → Bool
  | .error (.capacityExceeded _ _) => true
  | _ => false

/-! ## Sorting (ORDER BY) -/

/-- Insert `a` into `l` before the first element `b` with `le a b`. -/
def insertSortedBy {α : Type} (le : α → α → Bool) (a : α) : List α → List α
  | [] => [a]
  | b :: bs => if le a b then a :: b :: bs else b :: insertSortedBy le a bs

/-- Insertion sort by `le`; stable, so it models `ORDER BY` on the sorted
column while keeping the relative order of equal keys. -/
def sortBy {α : Type} (le : α → α → Bool) : List α → List α
  | [] => []
  | a :: as => insertSortedBy le a (sortBy le as)

/-! ## Batch composition (`searchLivestreamsHandler`, lines 227-369) -/

/-- Association-list lookup with Go-map write semantics: the last write to a
key wins. -/
def lastAssoc? {α : Type} : List (Int × α) → Int → Option α
  | [], _ => none
  | p :: rest, k =>
      match lastAssoc? rest k with
      | some v => some v
      | none => if p.1 == k then some p.2 else none

/-- One row of the batched user query as scanned by the handler. -/
structure UserJoinRow where
  userId : Int
  name : String
  displayName : String
  description : String
  themeId : Int
  darkMode : Bool
  image : Option (List Nat)
  deriving DecidableEq

/-- `LEFT JOIN icons ON users.id = icons.user_id`: one `NULL` row when the
user has no icon, otherwise one row per icon row. -/
def leftJoinIcon (db : DB) (uid : Int) : List (Option (List Nat)) :=
  match db.icons.filter fun ic => ic.userId == uid with
  | [] => [none]
  | found => found.map fun ic => some ic.image

/-- Rows of `SELECT users.id, name, display_name, description, themes.id,
dark_mode, image FROM users JOIN themes ON users.id = themes.user_id LEFT JOIN
icons ON users.id = icons.user_id WHERE users.id IN (?)` (no ORDER BY; the
embedding fixes a nested-loop row order). -/
def userJoinRows (db : DB) (ids : List Int) : List UserJoinRow :=
  (db.users.filter fun u => ids.contains u.id).flatMap fun u =>
    (db.themes.filter fun th => th.userId == u.id).flatMap fun th =>
      (leftJoinIcon db u.id).map fun img =>
        { userId := u.id, name := u.name, displayName := u.displayName,
          description := u.description, themeId := th.id, darkMode := th.darkMode,
          image := img }

/-- Build one `User` from a joined row, hashing the icon (or fallback) image. -/
def userFromJoinRow (env : Env) (r : UserJoinRow) : User :=
  let image := match r.image with
    | none => env.fallbackImage
    | some img => img
  { id := r.userId, name := r.name, displayName := r.displayName,
    description := r.description,
    theme := { id := r.themeId, darkMode := r.darkMode },
    iconHash := env.iconHash image }

/-- The `userMap` of the handler: one write per joined row, keyed by user id. -/
def buildUserMap (env : Env) (db : DB) (ids : List Int) : List (Int × User) :=
  (userJoinRows db ids).map fun r => (r.userId, userFromJoinRow env r)

/-- One row of the batched tag query; `linkId` is `livestream_tags.id`, the
`ORDER BY` column. -/
structure TagJoinRow where
  livestreamId : Int
  tagId : Int
  tagName : String
  linkId : Int
  deriving DecidableEq

/-- Rows of `SELECT livestream_tags.livestream_id, tags.id, tags.name FROM
tags JOIN livestream_tags ON tags.id = livestream_tags.tag_id WHERE
livestream_tags.livestream_id IN (?) ORDER BY livestream_tags.id`. -/
def tagJoinRows (db : DB) (ids : List Int) : List TagJoinRow :=
  sortBy (fun a b => decide (a.linkId ≤ b.linkId))
    (db.livestreamTags.flatMap fun lt =>
      if ids.contains lt.livestreamId then
        (db.tags.filter fun t => t.id == lt.tagId).map fun t =>
          { livestreamId := lt.livestreamId, tagId := t.id, tagName := t.name,
            linkId := lt.id }
      else [])

/-- The `tagsMap` loop of the handler: append each joined row's tag to the
entry of its livestream (Go map write: last write to a key wins). -/
def buildTagsMapAux (m : List (Int × List Tag)) : List TagJoinRow → List (Int × List Tag)
  | [] => m
  | r :: rest =>
      buildTagsMapAux
        (m ++ [(r.livestreamId,
                ((lastAssoc? m r.livestreamId).getD []) ++ [{ id := r.tagId, name := r.tagName }])])
        rest

/-- The finished `tagsMap`. -/
def buildTagsMap (rows : List TagJoinRow) : List (Int × List Tag) :=
  buildTagsMapAux [] rows

/-- Go zero value of `User`, produced by `userMap[id]` for an absent key. -/
def zeroUser : User :=
  { id := 0, name := "", displayName := "", description := "",
    theme := { id := 0, darkMode := false }, iconHash := "" }

/-- Assemble one aggregate from the two maps (the final loop of the batch). -/
def composeOne (userMap : List (Int × User)) (tagsMap : List (Int × List Tag))
    (m : LivestreamRow) : Livestream :=
  { id := m.id, owner := (lastAssoc? userMap m.userId).getD zeroUser,
    title := m.title, tags := (lastAssoc? tagsMap m.id).getD [],
    description := m.description, playlistUrl := m.playlistUrl,
    thumbnailUrl := m.thumbnailUrl, startAt := m.startAt, endAt := m.endAt }

/-- Batch composition over the fetched records.  The handler deduplicates the
owner ids through a Go set before the `IN (?)` query; `IN` only tests
membership, which is invariant under duplicates and order, so the embedding
passes the plain id list. -/
def batchCompose (env : Env) (db : DB) (ms : List LivestreamRow) : List Livestream :=
  let userMap := buildUserMap env db (ms.map fun m => m.userId)
  let tagsMap := buildTagsMap (tagJoinRows db (ms.map fun m => m.id))
  ms.map fun m => composeOne userMap tagsMap m

/-! ## Search and get handlers -/

/-- Go `strconv.Atoi`: optional sign, at least one decimal digit, no other
characters, result within the 64-bit int range. -/
def goAtoi (s : String) : Option Int :=
  match s.toList with
  | [] => none
  | c :: rest =>
      let sign : Int := if c = '-' then -1 else 1
      let digits : List Char := if c = '-' ∨ c = '+' then rest else c :: rest
      if digits = [] ∨ ¬(digits.all Char.isDigit) then none
      else
        let v : Int := sign * digits.foldl (fun acc c2 => acc * 10 + ((c2.toNat : Int) - 48)) 0
        if -(2 ^ 63) ≤ v ∧ v < 2 ^ 63 then some v else none

/-- Rows of the tag-filtered query: `livestreams JOIN livestream_tags JOIN
tags WHERE tags.name = ? ORDER BY livestreams.id DESC`. -/
def livestreamRowsByTag (db : DB) (tagName : String) : List LivestreamRow :=
  sortBy (fun a b => decide (b.id ≤ a.id))
    (db.livestreams.flatMap fun l =>
      (db.livestreamTags.filter fun lt => lt.livestreamId == l.id).flatMap fun lt =>
        (db.tags.filter fun t => t.id == lt.tagId && t.name == tagName).map fun _ => l)

/-- Rows of `SELECT * FROM livestreams ORDER BY id DESC`. -/
def allLivestreamRowsDesc (db : DB) : List LivestreamRow :=
  sortBy (fun a b => decide (b.id ≤ a.id)) db.livestreams

/-- `searchLivestreamsHandler`: tag filter when the `tag` query parameter is
non-empty, otherwise list all; the `limit` parameter is only read in the
no-tag branch, where a non-integer value is a 400 and a negative value makes
MySQL reject the `LIMIT` clause (500). -/
def searchLivestreams (env : Env) (db : DB) (keyTagName : String) (rawLimit : Option String) :
    Except SearchErr (List Livestream) :=
  if keyTagName ≠ "" then
    .ok (batchCompose env db (livestreamRowsByTag db keyTagName))
  else
    match rawLimit with
    | none => .ok (batchCompose env db (allLivestreamRowsDesc db))
    | some s =>
        match goAtoi s with
        | none => .error (.badRequest "limit query parameter must be integer")
        | some n =>
            if n < 0 then .error (.internal "failed to get livestreams")
            else .ok (batchCompose env db ((allLivestreamRowsDesc db).take n.toNat))

/-- `getLivestreamHandler` core: `SELECT * FROM livestreams WHERE id = ?`,
404 on no row, then single-item composition. -/
def getLivestream (env : Env) (db : DB) (lsid : Int) : Except GetErr Livestream :=
  match db.livestreams.find? fun l => l.id == lsid with
  | none => .error .notFound
  | some m =>
      match fillLivestreamResponse env db m with
      | .error _ => .error (.internal "failed to fill livestream")
      | .ok ls => .ok ls

/-! ## Specification-side vocabulary used by the theorem statements -/

/-- The slot buckets are pairwise distinct `(start_at, end_at)` keys, as in
the seeded per-hour inventory (spec §3: one capacity counter per bucket). -/
def keysUnique (db : DB) : Prop :=
  db.reservationSlots.Pairwise fun a b => ¬(a.startAt = b.startAt ∧ a.endAt = b.endAt)

/-- Well-formedness of the read model: primary keys are unique, every user
has exactly one theme and at most one icon, the association table is in
auto-increment (creation) order, and every association resolves in the tag
catalog. -/
structure WFRead (db : DB) : Prop where
  usersUnique : db.users.Pairwise fun a b => a.id ≠ b.id
  tagsUnique : db.tags.Pairwise fun a b => a.id ≠ b.id
  themeOnce : ∀ u ∈ db.users, (db.themes.filter fun th => th.userId == u.id).length = 1
  iconAtMostOne : ∀ u ∈ db.users, (db.icons.filter fun ic => ic.userId == u.id).length ≤ 1
  linksSorted : db.livestreamTags.Pairwise fun a b => a.id ≤ b.id
  linkTagExists : ∀ lt ∈ db.livestreamTags, ∃ t ∈ db.tags, t.id = lt.tagId

/-- States reachable from `db` by any sequence of booking operations, with
arbitrary storage faults. -/
inductive Reachable (env : Env) (db : DB) : DB → Prop where
  | refl : Reachable env db db
  | step (dbMid : DB) (o : FaultOracle) (uid : Int) (req : ReserveReq) :
      Reachable env db dbMid → Reachable env db (reserve o env dbMid uid req).2

/-- The association rows a successful booking appends: one per requested tag
id, in request order, with consecutive auto-increment ids. -/
def tagRowsFrom (start : Int) (lsid : Int) : List Int → List LivestreamTagRow
  | [] => []
  | tid :: rest => { id := start, livestreamId := lsid, tagId := tid } :: tagRowsFrom (start + 1) lsid rest

/-- The state committed by a successful booking: covered slots decremented,
the new livestream row appended with the next id, one association row per
requested tag appended in request order. -/
def reservePost (db : DB) (userID : Int) (req : ReserveReq) : DB :=
  let db1 := decrementSlots db req.startAt req.endAt
  { db1 with
    livestreams := db1.livestreams ++ [newLsRow db1 userID req],
    nextLivestreamId := db1.nextLivestreamId + 1,
    livestreamTags := db1.livestreamTags ++
      tagRowsFrom db1.nextLivestreamTagId db1.nextLivestreamId req.tags,
    nextLivestreamTagId := db1.nextLivestreamTagId + req.tags.length }

/-- The tag as resolved from the catalog by id. -/
def tagOf (db : DB) (tid : Int) : Option Tag :=
  (db.tags.find? fun t => t.id == tid).map fun t => { id := t.id, name := t.name }

/-- The tags of a livestream in the order the associations were created:
the association table in insertion order, each row resolved in the catalog. -/
def creationTags (db : DB) (lsid : Int) : List Tag :=
  (db.livestreamTags.filter fun lt => lt.livestreamId == lsid).filterMap fun lt =>
    tagOf db lt.tagId

instance exceptDecEq {ε α : Type} [DecidableEq ε] [DecidableEq α] :
    DecidableEq (Except ε α) := fun x y =>
  match x, y with
  | .error a, .error b => if h : a = b then .isTrue (by rw [h]) else .isFalse (by simp [h])
  | .ok a, .ok b => if h : a = b then .isTrue (by rw [h]) else .isFalse (by simp [h])
  | .error _, .ok _ => .isFalse (by simp)
  | .ok _, .error _ => .isFalse (by simp)

/-! ## Concrete instances used by the witnesses and counterexamples -/

/-- A concrete icon hash function for witness states. -/
def constHash : List Nat → String := fun _ => "h"

/-- A concrete environment for witness states. -/
def wEnv : Env := { fallbackImage := [7], iconHash := constHash }

/-- A minimal state: one user with one theme, an empty calendar. -/
def wDbSmall : DB :=
  { reservationSlots := [], livestreams := [], livestreamTags := [], tags := [],
    users := [{ id := 1, name := "n", displayName := "dn", password := "pw",
                description := "de" }],
    themes := [{ id := 5, userId := 1, darkMode := false }], icons := [],
    nextLivestreamId := 10, nextLivestreamTagId := 20 }

/-- A request with `startAt = endAt`, inside the term window. -/
def wReqEqual : ReserveReq :=
  { tags := [], title := "t", description := "d", playlistUrl := "p",
    thumbnailUrl := "u", startAt := 1700877600, endAt := 1700877600 }

/-- A request starting exactly at the term end. -/
def wReqLate : ReserveReq := { wReqEqual with startAt := 1732496400, endAt := 1732500000 }

/-- An oracle where the livestream insert fails. -/
def wFailOracle : FaultOracle := { noFault with insertFail := true }

/-- A state with two hour buckets, one of them exhausted, and a one-tag
catalog. -/
def wSlotsDb : DB :=
  { wDbSmall with
    reservationSlots := [{ id := 1, slot := 1, startAt := 1700874000, endAt := 1700877600 },
                         { id := 2, slot := 0, startAt := 1700877600, endAt := 1700881200 }],
    tags := [{ id := 3, name := "a" }] }

/-- A request covering both buckets of `wSlotsDb` (the second is exhausted). -/
def wReqCap : ReserveReq := { wReqEqual with tags := [3], startAt := 1700874000, endAt := 1700881200 }

/-- A request covering only the first (free) bucket of `wSlotsDb`. -/
def wReqOne : ReserveReq := { wReqEqual with tags := [3], startAt := 1700874000, endAt := 1700877600 }

/-- A read state with two livestreams and their tag associations. -/
def wBatchDb : DB :=
  { wSlotsDb with
    livestreams := [{ id := 1, userId := 1, title := "t1", description := "d1",
                      playlistUrl := "p1", thumbnailUrl := "u1", startAt := 5, endAt := 6 },
                    { id := 2, userId := 1, title := "t2", description := "d2",
                      playlistUrl := "p2", thumbnailUrl := "u2", startAt := 7, endAt := 8 }],
    livestreamTags := [{ id := 1, livestreamId := 1, tagId := 3 },
                       { id := 2, livestreamId := 2, tagId := 3 }] }

/-- The aggregate returned for `wReqOne` on `wSlotsDb`. -/
def wLs : Livestream :=
  { id := 10,
    owner := { id := 1, name := "n", displayName := "dn", description := "de",
               theme := { id := 5, darkMode := false }, iconHash := "h" },
    title := "t", description := "d", playlistUrl := "p", thumbnailUrl := "u",
    tags := [{ id := 3, name := "a" }], startAt := 1700874000, endAt := 1700877600 }

/-! ## Transaction rollback -/

/-- On any error response the committed state is the pre-request state. -/
theorem reserve_error_state (o : FaultOracle) (env : Env) (db : DB) (uid : Int)
    (req : ReserveReq) (e : RsvErr)
    (h : (reserve o env db uid req).1 = .error e) :
    (reserve o env db uid req).2 = db := by
  unfold reserve at h ⊢
  cases hb : o.beginFail with
  | true => simp [hb]
  | false =>
      simp only [hb, Bool.false_eq_true, if_false] at h ⊢
      cases htx : reserveTx o env db uid req with
      | error e2 => simp [htx]
      | ok p =>
          obtain ⟨ls, txDB⟩ := p
          simp only [htx] at h ⊢
          cases hc : o.commitFail with
          | true => simp [hc]
          | false => simp [hc] at h

/-- Claim C3: if any step of the booking transaction fails (slot query, slot
update, livestream insert, any tag insert, response composition, or commit),
the whole transaction is rolled back and the resulting state equals the state
before the attempt: no livestream row, no tag row and no slot decrement from
the failed booking survives. -/
theorem claim_c3_rollback (o : FaultOracle) (env : Env) (db : DB) (uid : Int)
    (req : ReserveReq) (e : RsvErr)
    (h : (reserve o env db uid req).1 = .error e) :
    (reserve o env db uid req).2 = db :=
  reserve_error_state o env db uid req e h

/-- Witness for C3: a run whose livestream insert fails leaves the concrete
state untouched. -/
theorem claim_c3_rollback_witness :
    (reserve wFailOracle wEnv wDbSmall 1 wReqEqual).1
        = .error (.internal "failed to insert livestream") ∧
    (reserve wFailOracle wEnv wDbSmall 1 wReqEqual).2 = wDbSmall :=
  ⟨rfl, claim_c3_rollback wFailOracle wEnv wDbSmall 1 wReqEqual
    (.internal "failed to insert livestream") rfl⟩

/-! ## Time-window validation -/

/-- Claim C4 counterexample: the handler never checks `startAt < endAt`.  A
request with `startAt = endAt` inside the term window is not rejected: it is
admitted (its covered slot set is empty) and a livestream row is created. -/
theorem claim_c4_counterexample :
    wReqEqual.endAt ≤ wReqEqual.startAt ∧
    (reserve noFault wEnv wDbSmall 1 wReqEqual).1.isOk = true ∧
    (reserve noFault wEnv wDbSmall 1 wReqEqual).2.livestreams ≠ wDbSmall.livestreams := by
  refine ⟨by decide, rfl, by decide⟩

/-- Claim C4 (amended): a booking request whose window lies fully outside the
configured term (`startAt ≥ termEnd` or `endAt ≤ termStart`) is rejected with
the validation error before any mutation; the condition `startAt ≥ endAt` by
itself is not checked, and such a request inside the term proceeds. -/
theorem claim_c4_amended (o : FaultOracle) (env : Env) (db : DB) (uid : Int)
    (req : ReserveReq) (hb : o.beginFail = false)
    (hout : termEndAt ≤ req.startAt ∨ req.endAt ≤ termStartAt) :
    (reserve o env db uid req).1 = .error .badTimeRange ∧
    (reserve o env db uid req).2 = db := by
  unfold reserve reserveTx
  rw [hb]
  rw [if_pos hout]
  simp

/-- Witness for the amended C4 at a concrete request starting at the term
end. -/
theorem claim_c4_amended_witness :
    (reserve noFault wEnv wDbSmall 1 wReqLate).1 = .error .badTimeRange ∧
    (reserve noFault wEnv wDbSmall 1 wReqLate).2 = wDbSmall :=
  claim_c4_amended noFault wEnv wDbSmall 1 wReqLate rfl (Or.inl (by decide))

/-! ## Capacity check lemmas -/

@[simp] theorem noFault_beginFail : noFault.beginFail = false := rfl
@[simp] theorem noFault_slotSelectFail : noFault.slotSelectFail = false := rfl
@[simp] theorem noFault_countFail (i : Nat) : noFault.countFail i = false := rfl
@[simp] theorem noFault_updateFail : noFault.updateFail = false := rfl
@[simp] theorem noFault_insertFail : noFault.insertFail = false := rfl
@[simp] theorem noFault_lastIdFail : noFault.lastIdFail = false := rfl
@[simp] theorem noFault_tagInsertFail (i : Nat) : noFault.tagInsertFail i = false := rfl
@[simp] theorem noFault_fillFail : noFault.fillFail = false := rfl
@[simp] theorem noFault_commitFail : noFault.commitFail = false := rfl

/-- With pairwise-distinct bucket keys, the capacity re-query by
`(start_at, end_at)` returns the locked row itself. -/
theorem find_key_self (l : List SlotRow)
    (hk : l.Pairwise fun a b => ¬(a.startAt = b.startAt ∧ a.endAt = b.endAt))
    (r : SlotRow) (hr : r ∈ l) :
    l.find? (fun x => x.startAt == r.startAt && x.endAt == r.endAt) = some r := by
  induction l with
  | nil => cases hr
  | cons a rest ih =>
      have hpw := List.pairwise_cons.mp hk
      rcases List.mem_cons.mp hr with h | h
      · subst h
        simp [List.find?_cons]
      · have hne : ¬(a.startAt = r.startAt ∧ a.endAt = r.endAt) := hpw.1 r h
        have hpred : (a.startAt == r.startAt && a.endAt == r.endAt) = false := by
          by_cases h1 : a.startAt = r.startAt
          · by_cases h2 : a.endAt = r.endAt
            · exact absurd ⟨h1, h2⟩ hne
            · simp [h2]
          · simp [h1]
        rw [List.find?_cons, hpred]
        exact ih hpw.2 h

/-- If the per-slot check succeeds (under any fault oracle), every checked
slot had capacity at least 1. -/
theorem checkSlots_ok_capacity (o : FaultOracle) (db : DB) (s e : Int) (i : Nat)
    (sl : List SlotRow) (hk : keysUnique db)
    (hsub : ∀ r ∈ sl, r ∈ db.reservationSlots)
    (h : checkSlots o db s e i sl = .ok ()) :
    ∀ r ∈ sl, 1 ≤ r.slot := by
  induction sl generalizing i with
  | nil => intro r hr; cases hr
  | cons a rest ih =>
      have ha : a ∈ db.reservationSlots := hsub a (List.mem_cons_self a rest)
      intro r hr
      unfold checkSlots at h
      cases hf : o.countFail i with
      | true => simp [hf] at h
      | false =>
          simp only [hf, Bool.false_eq_true, if_false] at h
          rw [find_key_self db.reservationSlots hk a ha] at h
          by_cases hlt : a.slot < 1
          · simp [hlt] at h
          · simp only [hlt, if_false] at h
            rcases List.mem_cons.mp hr with hra | hrr
            · subst hra; omega
            · exact ih (i + 1) (fun x hx => hsub x (List.mem_cons_of_mem a hx)) h r hrr

/-- Without storage faults the check loop rejects with the capacity error
exactly when some checked slot has capacity below 1. -/
theorem checkSlots_noFault_eq (db : DB) (s e : Int) (i : Nat) (sl : List SlotRow)
    (hk : keysUnique db) (hsub : ∀ r ∈ sl, r ∈ db.reservationSlots) :
    checkSlots noFault db s e i sl =
      if sl.any (fun r => decide (r.slot < 1)) then .error (.capacityExceeded s e)
      else .ok () := by
  induction sl generalizing i with
  | nil => simp [checkSlots]
  | cons a rest ih =>
      have ha : a ∈ db.reservationSlots := hsub a (List.mem_cons_self a rest)
      unfold checkSlots
      simp only [noFault_countFail, Bool.false_eq_true, if_false]
      rw [find_key_self db.reservationSlots hk a ha]
      by_cases hlt : a.slot < 1
      · simp [hlt]
      · simp only [hlt, if_false]
        rw [ih (i + 1) (fun x hx => hsub x (List.mem_cons_of_mem a hx))]
        simp [List.any_cons, hlt]

/-! ## Booking state characterization -/

/-- Without storage faults the tag-insertion loop appends one association row
per requested tag, in request order, with consecutive ids. -/
theorem insertTagsLoop_noFault (lsid : Int) (i : Nat) (db : DB) (ts : List Int) :
    insertTagsLoop noFault lsid i db ts =
      .ok { db with
            livestreamTags := db.livestreamTags ++ tagRowsFrom db.nextLivestreamTagId lsid ts,
            nextLivestreamTagId := db.nextLivestreamTagId + ts.length } := by
  induction ts generalizing i db with
  | nil => simp [insertTagsLoop, tagRowsFrom]
  | cons t rest ih =>
      simp only [insertTagsLoop, noFault_tagInsertFail, Bool.false_eq_true, if_false]
      rw [ih]
      simp only [insertTagRow, tagRowsFrom]
      congr 1
      simp [DB.mk.injEq, List.append_assoc, List.length_cons]
      omega

/-- Under any fault oracle, a successful tag-insertion loop produced exactly
the appended association rows. -/
theorem insertTagsLoop_ok_state (o : FaultOracle) (lsid : Int) (i : Nat) (db : DB)
    (ts : List Int) (db' : DB) (h : insertTagsLoop o lsid i db ts = .ok db') :
    db' = { db with
            livestreamTags := db.livestreamTags ++ tagRowsFrom db.nextLivestreamTagId lsid ts,
            nextLivestreamTagId := db.nextLivestreamTagId + ts.length } := by
  induction ts generalizing i db with
  | nil =>
      simp only [insertTagsLoop] at h
      cases h
      simp [tagRowsFrom]
  | cons t rest ih =>
      simp only [insertTagsLoop] at h
      cases hf : o.tagInsertFail i with
      | true => simp [hf] at h
      | false =>
          simp only [hf, Bool.false_eq_true, if_false] at h
          have := ih (i + 1) (insertTagRow db lsid t) h
          rw [this]
          simp only [insertTagRow, tagRowsFrom]
          congr 1
          all_goals simp [List.append_assoc, List.length_cons]
          all_goals omega

/-- Any successful transaction body produced exactly the post-state, its
capacity check passed, and its response is the composition over the
post-state. -/
theorem reserveTx_ok_state (o : FaultOracle) (env : Env) (db : DB) (uid : Int)
    (req : ReserveReq) (ls : Livestream) (txDB : DB)
    (h : reserveTx o env db uid req = .ok (ls, txDB)) :
    txDB = reservePost db uid req ∧
    checkSlots o db req.startAt req.endAt 0 (coveredSlots db req.startAt req.endAt) = .ok () ∧
    fillLivestreamResponse env (reservePost db uid req) (newLsRow db uid req) = .ok ls := by
  unfold reserveTx at h
  split at h
  · simp at h
  · split at h
    · simp at h
    · split at h
      · simp at h
      · rename_i u hc
        split at h
        · simp at h
        · split at h
          · simp at h
          · split at h
            · simp at h
            · split at h
              · dsimp only at h
                split at h <;> simp at h
              · dsimp only at h
                split at h
                · simp at h
                · rename_i db3 him
                  split at h
                  · simp at h
                  · rename_i ls0 hfill
                    simp only [Except.ok.injEq, Prod.mk.injEq] at h
                    obtain ⟨hls, hdb⟩ := h
                    have hchar := insertTagsLoop_ok_state _ _ _ _ _ _ him
                    subst hdb
                    subst hls
                    refine ⟨?_, ?_, ?_⟩
                    · rw [hchar]
                      rfl
                    · cases u
                      exact hc
                    · rw [hchar] at hfill
                      exact hfill

/-- Every booking operation either leaves the state unchanged or commits
exactly the post-state, the latter only when its capacity check passed. -/
theorem reserve_state_cases (o : FaultOracle) (env : Env) (db : DB) (uid : Int)
    (req : ReserveReq) :
    (reserve o env db uid req).2 = db ∨
    ((reserve o env db uid req).2 = reservePost db uid req ∧
     checkSlots o db req.startAt req.endAt 0 (coveredSlots db req.startAt req.endAt) = .ok ()) := by
  unfold reserve
  cases hb : o.beginFail with
  | true => left; simp [hb]
  | false =>
      simp only [hb, Bool.false_eq_true, if_false]
      cases htx : reserveTx o env db uid req with
      | error e => left; simp
      | ok p =>
          obtain ⟨ls, txDB⟩ := p
          have hst := reserveTx_ok_state o env db uid req ls txDB htx
          cases hc : o.commitFail with
          | true => left; simp [hc]
          | false =>
              right
              simp only [hc, Bool.false_eq_true, if_false]
              exact ⟨hst.1, hst.2.1⟩

/-! ## Post-state projections -/

@[simp] theorem reservePost_users (db : DB) (uid : Int) (req : ReserveReq) :
    (reservePost db uid req).users = db.users := rfl
@[simp] theorem reservePost_themes (db : DB) (uid : Int) (req : ReserveReq) :
    (reservePost db uid req).themes = db.themes := rfl
@[simp] theorem reservePost_icons (db : DB) (uid : Int) (req : ReserveReq) :
    (reservePost db uid req).icons = db.icons := rfl
@[simp] theorem reservePost_tags (db : DB) (uid : Int) (req : ReserveReq) :
    (reservePost db uid req).tags = db.tags := rfl
@[simp] theorem reservePost_livestreams (db : DB) (uid : Int) (req : ReserveReq) :
    (reservePost db uid req).livestreams = db.livestreams ++ [newLsRow db uid req] := rfl
@[simp] theorem reservePost_livestreamTags (db : DB) (uid : Int) (req : ReserveReq) :
    (reservePost db uid req).livestreamTags =
      db.livestreamTags ++
        tagRowsFrom db.nextLivestreamTagId db.nextLivestreamId req.tags := rfl
@[simp] theorem reservePost_nextLivestreamId (db : DB) (uid : Int) (req : ReserveReq) :
    (reservePost db uid req).nextLivestreamId = db.nextLivestreamId + 1 := rfl
@[simp] theorem reservePost_nextLivestreamTagId (db : DB) (uid : Int) (req : ReserveReq) :
    (reservePost db uid req).nextLivestreamTagId =
      db.nextLivestreamTagId + req.tags.length := rfl
@[simp] theorem reservePost_reservationSlots (db : DB) (uid : Int) (req : ReserveReq) :
    (reservePost db uid req).reservationSlots =
      (decrementSlots db req.startAt req.endAt).reservationSlots := rfl
@[simp] theorem newLsRow_id (db : DB) (uid : Int) (req : ReserveReq) :
    (newLsRow db uid req).id = db.nextLivestreamId := rfl
@[simp] theorem newLsRow_userId (db : DB) (uid : Int) (req : ReserveReq) :
    (newLsRow db uid req).userId = uid := rfl
@[simp] theorem tagOf_reservePost (db : DB) (uid : Int) (req : ReserveReq) (tid : Int) :
    tagOf (reservePost db uid req) tid = tagOf db tid := rfl

/-! ## Generic query lemmas -/

/-- A single-row query returns the first row of the filtered multiset. -/
theorem find?_eq_head?_filter {α : Type} (p : α → Bool) (l : List α) :
    l.find? p = (l.filter p).head? := by
  induction l with
  | nil => rfl
  | cons a rest ih =>
      rw [List.find?_cons, List.filter_cons]
      cases h : p a
      · simp only [h, Bool.false_eq_true, if_false]
        exact ih
      · simp only [h, if_true]
        rfl

/-- The tag-resolution loop succeeds and returns the catalog entries in input
order when every association resolves. -/
theorem resolveTags_ok (db : DB) (lts : List LivestreamTagRow)
    (h : ∀ lt ∈ lts, (tagOf db lt.tagId).isSome) :
    resolveTags db lts = .ok (lts.filterMap fun lt => tagOf db lt.tagId) := by
  induction lts with
  | nil => rfl
  | cons lt rest ih =>
      have h1 : (tagOf db lt.tagId).isSome := h lt (List.mem_cons_self _ _)
      unfold resolveTags
      cases hf : db.tags.find? fun t => t.id == lt.tagId with
      | none => simp [tagOf, hf] at h1
      | some t =>
          rw [ih (fun x hx => h x (List.mem_cons_of_mem _ hx))]
          simp [List.filterMap_cons, tagOf, hf]

/-! ## Appended association row lemmas -/

theorem mem_tagRowsFrom (start lsid : Int) (ts : List Int) (lt : LivestreamTagRow)
    (h : lt ∈ tagRowsFrom start lsid ts) : lt.livestreamId = lsid ∧ lt.tagId ∈ ts := by
  induction ts generalizing start with
  | nil => cases h
  | cons t rest ih =>
      rcases List.mem_cons.mp h with h1 | h1
      · subst h1; exact ⟨rfl, List.mem_cons_self _ _⟩
      · obtain ⟨h2, h3⟩ := ih (start + 1) h1
        exact ⟨h2, List.mem_cons_of_mem _ h3⟩

theorem tagRowsFrom_filter_self (start lsid : Int) (ts : List Int) :
    (tagRowsFrom start lsid ts).filter (fun lt => lt.livestreamId == lsid) =
      tagRowsFrom start lsid ts := by
  induction ts generalizing start with
  | nil => rfl
  | cons t rest ih => simp [tagRowsFrom, List.filter_cons, ih]

theorem tagRowsFrom_filter_ne (start lsid k : Int) (h : k ≠ lsid) (ts : List Int) :
    (tagRowsFrom start lsid ts).filter (fun lt => lt.livestreamId == k) = [] := by
  induction ts generalizing start with
  | nil => rfl
  | cons t rest ih =>
      simp only [tagRowsFrom, List.filter_cons]
      have : (lsid == k) = false := by simp [Ne.symm h]
      simp [this, ih]

theorem tagRowsFrom_filterMap {β : Type} (f : Int → Option β) (start lsid : Int)
    (ts : List Int) :
    (tagRowsFrom start lsid ts).filterMap (fun lt => f lt.tagId) = ts.filterMap f := by
  induction ts generalizing start with
  | nil => rfl
  | cons t rest ih =>
      simp only [tagRowsFrom, List.filterMap_cons]
      cases hft : f t <;> simp [hft, ih]

/-! ## Composition success on the post-state -/

/-- The identity composition succeeds whenever the user has exactly one
theme row. -/
theorem fillUser_ok (env : Env) (db : DB) (u : UserRow)
    (h : (db.themes.filter fun th => th.userId == u.id).length = 1) :
    ∃ v, fillUserResponse env db u = .ok v := by
  obtain ⟨th, hthl⟩ := List.length_eq_one.mp h
  have hfth : db.themes.find? (fun t => t.userId == u.id) = some th := by
    rw [find?_eq_head?_filter, hthl]; rfl
  unfold fillUserResponse
  rw [hfth]
  exact ⟨_, rfl⟩

/-- Composing the freshly booked livestream succeeds and yields exactly the
requested tags, resolved in request order. -/
theorem fill_post_ok (env : Env) (db : DB) (uid : Int) (req : ReserveReq)
    (hwf : WFRead db) (hu : ∃ u ∈ db.users, u.id = uid)
    (htags : ∀ tid ∈ req.tags, ∃ t ∈ db.tags, t.id = tid)
    (hfreshT : ∀ lt ∈ db.livestreamTags, lt.livestreamId ≠ db.nextLivestreamId) :
    ∃ ls, fillLivestreamResponse env (reservePost db uid req) (newLsRow db uid req) = .ok ls ∧
      ls.id = db.nextLivestreamId ∧
      ls.tags = req.tags.filterMap (tagOf db) := by
  obtain ⟨u, hu1, hu2⟩ := hu
  have hfindu : (db.users.find? fun x => x.id == uid).isSome := by
    rw [List.find?_isSome]
    exact ⟨u, hu1, by simp [hu2]⟩
  obtain ⟨u0, hu0⟩ := Option.isSome_iff_exists.mp hfindu
  have hu0mem : u0 ∈ db.users := List.mem_of_find?_eq_some hu0
  obtain ⟨owner, hown⟩ :=
    fillUser_ok env (reservePost db uid req) u0 (by
      simp only [reservePost_themes]
      exact hwf.themeOnce u0 hu0mem)
  have hfilter : (reservePost db uid req).livestreamTags.filter
      (fun lt => lt.livestreamId == (newLsRow db uid req).id) =
      tagRowsFrom db.nextLivestreamTagId db.nextLivestreamId req.tags := by
    simp only [reservePost_livestreamTags, newLsRow_id, List.filter_append]
    rw [tagRowsFrom_filter_self, List.filter_eq_nil_iff.mpr ?_]
    · simp
    · intro lt hlt
      simpa using hfreshT lt hlt
  have hres : resolveTags (reservePost db uid req)
      (tagRowsFrom db.nextLivestreamTagId db.nextLivestreamId req.tags) =
      .ok (req.tags.filterMap (tagOf db)) := by
    rw [resolveTags_ok (reservePost db uid req) _ ?_]
    · rw [show (fun lt => tagOf (reservePost db uid req) lt.tagId) =
            (fun lt : LivestreamTagRow => tagOf db lt.tagId) from rfl]
      rw [tagRowsFrom_filterMap (tagOf db)]
    · intro lt hlt
      obtain ⟨hl1, hl2⟩ := mem_tagRowsFrom _ _ _ _ hlt
      obtain ⟨t, ht1, ht2⟩ := htags lt.tagId hl2
      rw [show tagOf (reservePost db uid req) lt.tagId = tagOf db lt.tagId from rfl]
      have : (db.tags.find? fun x => x.id == lt.tagId).isSome := by
        rw [List.find?_isSome]
        exact ⟨t, ht1, by simp [ht2]⟩
      simpa [tagOf] using this
  refine ⟨{ id := db.nextLivestreamId, owner := owner, title := req.title,
            tags := req.tags.filterMap (tagOf db), description := req.description,
            playlistUrl := req.playlistUrl, thumbnailUrl := req.thumbnailUrl,
            startAt := req.startAt, endAt := req.endAt }, ?_, rfl, rfl⟩
  unfold fillLivestreamResponse
  simp only [reservePost_users, newLsRow_userId, hu0, hown, hfilter, hres]
  rfl

/-- Without storage faults and with a valid time window, a booking evaluates
to: the capacity rejection with the state unchanged when some covered slot is
exhausted; otherwise the composed response with the committed post-state, or
an internal error with the state unchanged when composition fails. -/
theorem reserve_noFault_eq (env : Env) (db : DB) (uid : Int) (req : ReserveReq)
    (hv : ¬(termEndAt ≤ req.startAt ∨ req.endAt ≤ termStartAt)) (hk : keysUnique db) :
    reserve noFault env db uid req =
      if (coveredSlots db req.startAt req.endAt).any (fun r => decide (r.slot < 1)) then
        (.error (.capacityExceeded req.startAt req.endAt), db)
      else
        match fillLivestreamResponse env (reservePost db uid req) (newLsRow db uid req) with
        | .error _ => (.error (.internal "failed to fill livestream"), db)
        | .ok ls => (.ok ls, reservePost db uid req) := by
  have hsub : ∀ r ∈ coveredSlots db req.startAt req.endAt, r ∈ db.reservationSlots :=
    fun r hr => (List.mem_filter.mp hr).1
  unfold reserve reserveTx
  rw [checkSlots_noFault_eq db req.startAt req.endAt 0 _ hk hsub]
  rw [if_neg hv]
  simp only [noFault_beginFail, noFault_slotSelectFail, noFault_updateFail, noFault_insertFail,
    noFault_lastIdFail, noFault_fillFail, noFault_commitFail, Bool.false_eq_true, if_false]
  by_cases hany :
      (coveredSlots db req.startAt req.endAt).any (fun r => decide (r.slot < 1)) = true
  · rw [if_pos hany, if_pos hany]
  · rw [if_neg hany, if_neg hany]
    rw [show newLsRow (decrementSlots db req.startAt req.endAt) uid req
          = newLsRow db uid req from rfl]
    have hloop : insertTagsLoop noFault (newLsRow db uid req).id 0
        { decrementSlots db req.startAt req.endAt with
          livestreams := (decrementSlots db req.startAt req.endAt).livestreams ++
            [newLsRow db uid req],
          nextLivestreamId := (decrementSlots db req.startAt req.endAt).nextLivestreamId + 1 }
        req.tags = .ok (reservePost db uid req) := by
      rw [insertTagsLoop_noFault]
      rfl
    rw [hloop]
    dsimp only
    cases hfill : fillLivestreamResponse env (reservePost db uid req) (newLsRow db uid req) with
    | error e => rfl
    | ok ls => rfl

/-- A successful booking committed exactly the post-state, and its response
is the composition over the post-state. -/
theorem reserve_ok_state (o : FaultOracle) (env : Env) (db : DB) (uid : Int)
    (req : ReserveReq) (ls : Livestream)
    (h : (reserve o env db uid req).1 = .ok ls) :
    (reserve o env db uid req).2 = reservePost db uid req ∧
    fillLivestreamResponse env (reservePost db uid req) (newLsRow db uid req) = .ok ls := by
  unfold reserve at h ⊢
  cases hb : o.beginFail with
  | true => simp [hb] at h
  | false =>
      simp only [hb, Bool.false_eq_true, if_false] at h ⊢
      cases htx : reserveTx o env db uid req with
      | error e => simp [htx] at h
      | ok p =>
          obtain ⟨ls0, txDB⟩ := p
          simp only [htx] at h ⊢
          cases hc : o.commitFail with
          | true => simp [hc] at h
          | false =>
              simp only [hc, Bool.false_eq_true, if_false] at h ⊢
              have hst := reserveTx_ok_state o env db uid req ls0 txDB htx
              simp only [Except.ok.injEq] at h
              subst h
              exact ⟨hst.1, hst.2.2⟩

/-! ## Claim C1 -/

/-- Claim C1: under a valid time window (and a well-formed state), a booking
is rejected with the capacity error exactly when some covered slot row has
capacity below 1; on such a rejection no slot row is modified (the state is
unchanged); and a request whose range matches zero slot rows is admitted. -/
theorem claim_c1_capacity (env : Env) (db : DB) (uid : Int) (req : ReserveReq)
    (hv : ¬(termEndAt ≤ req.startAt ∨ req.endAt ≤ termStartAt))
    (hk : keysUnique db) (hwf : WFRead db)
    (hu : ∃ u ∈ db.users, u.id = uid)
    (htags : ∀ tid ∈ req.tags, ∃ t ∈ db.tags, t.id = tid)
    (hfreshT : ∀ lt ∈ db.livestreamTags, lt.livestreamId ≠ db.nextLivestreamId) :
    (isCapacityRejection (reserve noFault env db uid req).1 = true ↔
      ∃ r ∈ coveredSlots db req.startAt req.endAt, r.slot < 1) ∧
    (isCapacityRejection (reserve noFault env db uid req).1 = true →
      (reserve noFault env db uid req).2 = db) ∧
    (coveredSlots db req.startAt req.endAt = [] →
      ∃ ls, (reserve noFault env db uid req).1 = .ok ls) := by
  have hexch : ((coveredSlots db req.startAt req.endAt).any
      (fun r => decide (r.slot < 1)) = true) ↔
      ∃ r ∈ coveredSlots db req.startAt req.endAt, r.slot < 1 := by
    simp [List.any_eq_true]
  rw [reserve_noFault_eq env db uid req hv hk]
  obtain ⟨ls0, hls0, hid0, htags0⟩ := fill_post_ok env db uid req hwf hu htags hfreshT
  rw [hls0]
  by_cases hany : ((coveredSlots db req.startAt req.endAt).any
      (fun r => decide (r.slot < 1)) = true)
  · rw [if_pos hany]
    refine ⟨⟨fun _ => hexch.mp hany, fun _ => rfl⟩, fun _ => rfl, fun hnil => ?_⟩
    rw [hnil] at hany
    simp at hany
  · rw [if_neg hany]
    refine ⟨⟨fun hcap => ?_, fun hex => absurd (hexch.mpr hex) hany⟩,
            fun hcap => ?_, fun _ => ⟨ls0, rfl⟩⟩
    · simp [isCapacityRejection] at hcap
    · simp [isCapacityRejection] at hcap

/-- Witness for C1 on a concrete state whose second covered bucket is
exhausted: the request over both buckets is a capacity rejection with the
state unchanged. -/
theorem claim_c1_capacity_witness :
    (isCapacityRejection (reserve noFault wEnv wSlotsDb 1 wReqCap).1 = true ↔
      ∃ r ∈ coveredSlots wSlotsDb wReqCap.startAt wReqCap.endAt, r.slot < 1) ∧
    (isCapacityRejection (reserve noFault wEnv wSlotsDb 1 wReqCap).1 = true →
      (reserve noFault wEnv wSlotsDb 1 wReqCap).2 = wSlotsDb) ∧
    (coveredSlots wSlotsDb wReqCap.startAt wReqCap.endAt = [] →
      ∃ ls, (reserve noFault wEnv wSlotsDb 1 wReqCap).1 = .ok ls) :=
  claim_c1_capacity wEnv wSlotsDb 1 wReqCap (by decide)
    (by unfold keysUnique; decide)
    ⟨by decide, by decide, by decide, by decide, by decide, by decide⟩
    (by decide) (by decide) (by decide)

/-! ## Claim C5 -/

/-- Claim C5: for every successful booking, each slot row covered by the
requested range has its capacity decremented by exactly 1, every slot row not
covered is unchanged (ids and bounds preserved), and the same committed state
carries the appended livestream row. -/
theorem claim_c5_frame (env : Env) (db : DB) (uid : Int) (req : ReserveReq)
    (ls : Livestream) (h : (reserve noFault env db uid req).1 = .ok ls) :
    List.Forall₂ (fun r rp => rp.id = r.id ∧ rp.startAt = r.startAt ∧ rp.endAt = r.endAt ∧
        rp.slot = (if req.startAt ≤ r.startAt ∧ r.endAt ≤ req.endAt then r.slot - 1
                   else r.slot))
      db.reservationSlots (reserve noFault env db uid req).2.reservationSlots ∧
    (reserve noFault env db uid req).2.livestreams = db.livestreams ++ [newLsRow db uid req] := by
  obtain ⟨h2, _⟩ := reserve_ok_state noFault env db uid req ls h
  rw [h2]
  constructor
  · rw [reservePost_reservationSlots]
    unfold decrementSlots
    rw [List.forall₂_map_right_iff]
    rw [List.forall₂_same]
    intro r hr
    by_cases hc : req.startAt ≤ r.startAt ∧ r.endAt ≤ req.endAt
    · simp [hc]
    · simp [hc]
  · rw [reservePost_livestreams]

/-- Witness for C5: the concrete booking of the free bucket decrements that
bucket only and appends the livestream row. -/
theorem claim_c5_frame_witness :
    List.Forall₂ (fun r rp => rp.id = r.id ∧ rp.startAt = r.startAt ∧ rp.endAt = r.endAt ∧
        rp.slot = (if wReqOne.startAt ≤ r.startAt ∧ r.endAt ≤ wReqOne.endAt then r.slot - 1
                   else r.slot))
      wSlotsDb.reservationSlots (reserve noFault wEnv wSlotsDb 1 wReqOne).2.reservationSlots ∧
    (reserve noFault wEnv wSlotsDb 1 wReqOne).2.livestreams =
      wSlotsDb.livestreams ++ [newLsRow wSlotsDb 1 wReqOne] :=
  claim_c5_frame wEnv wSlotsDb 1 wReqOne wLs (by decide)

/-! ## Claim C2 -/

/-- One booking step preserves distinct bucket keys and non-negative
capacities. -/
theorem reserve_preserves_inv (o : FaultOracle) (env : Env) (db : DB) (uid : Int)
    (req : ReserveReq) (hk : keysUnique db) (h0 : ∀ r ∈ db.reservationSlots, 0 ≤ r.slot) :
    keysUnique (reserve o env db uid req).2 ∧
    ∀ r ∈ (reserve o env db uid req).2.reservationSlots, 0 ≤ r.slot := by
  rcases reserve_state_cases o env db uid req with hcase | ⟨hcase, hchk⟩
  · rw [hcase]; exact ⟨hk, h0⟩
  · rw [hcase]
    have hcap : ∀ r ∈ coveredSlots db req.startAt req.endAt, 1 ≤ r.slot :=
      checkSlots_ok_capacity o db req.startAt req.endAt 0 _ hk
        (fun r hr => (List.mem_filter.mp hr).1) hchk
    constructor
    · unfold keysUnique
      rw [reservePost_reservationSlots]
      unfold decrementSlots
      rw [List.pairwise_map]
      refine hk.imp ?_
      intro a b hab hcontra
      apply hab
      by_cases ha : req.startAt ≤ a.startAt ∧ a.endAt ≤ req.endAt <;>
        by_cases hb2 : req.startAt ≤ b.startAt ∧ b.endAt ≤ req.endAt <;>
        simp [ha, hb2] at hcontra <;> exact hcontra
    · intro r hr
      rw [reservePost_reservationSlots] at hr
      unfold decrementSlots at hr
      obtain ⟨r0, hr0, hfr⟩ := List.mem_map.mp hr
      by_cases hc : req.startAt ≤ r0.startAt ∧ r0.endAt ≤ req.endAt
      · have hmem : r0 ∈ coveredSlots db req.startAt req.endAt :=
          List.mem_filter.mpr ⟨hr0, by simp [hc]⟩
        have h1 := hcap r0 hmem
        rw [← hfr]
        simp [hc]
        omega
      · rw [← hfr]
        simp [hc]
        exact h0 r0 hr0

/-- Claim C2: from any state with pairwise-distinct bucket keys and
non-negative capacities, every state reachable by booking operations keeps
every capacity non-negative; and no booking operation ever increases any
slot's capacity (stated for arbitrary states and oracles). -/
theorem claim_c2_invariant (env : Env) (db db2 : DB)
    (hk : keysUnique db) (h0 : ∀ r ∈ db.reservationSlots, 0 ≤ r.slot)
    (hr : Reachable env db db2) :
    (∀ r ∈ db2.reservationSlots, 0 ≤ r.slot) ∧
    (∀ (dbx : DB) (o : FaultOracle) (uid : Int) (req : ReserveReq),
      List.Forall₂ (fun a b => b.slot ≤ a.slot)
        dbx.reservationSlots (reserve o env dbx uid req).2.reservationSlots) := by
  constructor
  · have hinv : keysUnique db2 ∧ ∀ r ∈ db2.reservationSlots, 0 ≤ r.slot := by
      induction hr with
      | refl => exact ⟨hk, h0⟩
      | step dbMid o uid req hreach ih =>
          exact reserve_preserves_inv o env dbMid uid req ih.1 ih.2
    exact hinv.2
  · intro dbx o uid req
    rcases reserve_state_cases o env dbx uid req with hc | ⟨hc, _⟩
    · rw [hc, List.forall₂_same]
      intro x hx
      exact le_refl x.slot
    · rw [hc, reservePost_reservationSlots]
      unfold decrementSlots
      rw [List.forall₂_map_right_iff, List.forall₂_same]
      intro r hrm
      by_cases hcc : req.startAt ≤ r.startAt ∧ r.endAt ≤ req.endAt
      · simp [hcc]
      · simp [hcc]

/-- Witness for C2: one concrete booking step from the seeded two-bucket
state keeps capacities non-negative. -/
theorem claim_c2_invariant_witness :
    (∀ r ∈ (reserve noFault wEnv wSlotsDb 1 wReqOne).2.reservationSlots, 0 ≤ r.slot) ∧
    (∀ (dbx : DB) (o : FaultOracle) (uid : Int) (req : ReserveReq),
      List.Forall₂ (fun a b => b.slot ≤ a.slot)
        dbx.reservationSlots (reserve o wEnv dbx uid req).2.reservationSlots) :=
  claim_c2_invariant wEnv wSlotsDb (reserve noFault wEnv wSlotsDb 1 wReqOne).2
    (by unfold keysUnique; decide) (by decide)
    (Reachable.step wSlotsDb noFault 1 wReqOne Reachable.refl)

/-! ## Sorting lemmas -/

theorem insertSortedBy_perm {α : Type} (le : α → α → Bool) (a : α) (l : List α) :
    (insertSortedBy le a l).Perm (a :: l) := by
  induction l with
  | nil => exact List.Perm.refl _
  | cons b bs ih =>
      unfold insertSortedBy
      by_cases h : le a b = true
      · rw [if_pos h]
      · rw [if_neg h]
        exact (ih.cons b).trans (List.Perm.swap a b bs)

theorem sortBy_perm {α : Type} (le : α → α → Bool) (l : List α) : (sortBy le l).Perm l := by
  induction l with
  | nil => exact List.Perm.refl _
  | cons a as ih =>
      unfold sortBy
      exact (insertSortedBy_perm le a (sortBy le as)).trans (ih.cons a)

theorem pairwise_insertSortedBy {α : Type} (le : α → α → Bool)
    (htot : ∀ a b, le a b = true ∨ le b a = true)
    (htrans : ∀ a b c, le a b = true → le b c = true → le a c = true)
    (a : α) (l : List α) (hl : l.Pairwise fun x y => le x y = true) :
    (insertSortedBy le a l).Pairwise fun x y => le x y = true := by
  induction l with
  | nil => simp [insertSortedBy]
  | cons b bs ih =>
      obtain ⟨hb, hbs⟩ := List.pairwise_cons.mp hl
      unfold insertSortedBy
      by_cases h : le a b = true
      · rw [if_pos h, List.pairwise_cons]
        refine ⟨?_, hl⟩
        intro x hx
        rcases List.mem_cons.mp hx with rfl | hx2
        · exact h
        · exact htrans a b x h (hb x hx2)
      · rw [if_neg h, List.pairwise_cons]
        have hba : le b a = true := (htot a b).resolve_left h
        refine ⟨?_, ih hbs⟩
        intro x hx
        rcases List.mem_cons.mp ((insertSortedBy_perm le a bs).mem_iff.mp hx) with rfl | hx2
        · exact hba
        · exact hb x hx2

theorem pairwise_sortBy {α : Type} (le : α → α → Bool)
    (htot : ∀ a b, le a b = true ∨ le b a = true)
    (htrans : ∀ a b c, le a b = true → le b c = true → le a c = true)
    (l : List α) :
    (sortBy le l).Pairwise fun x y => le x y = true := by
  induction l with
  | nil => simp [sortBy]
  | cons a as ih => exact pairwise_insertSortedBy le htot htrans a _ ih

theorem insertSortedBy_eq_cons {α : Type} (le : α → α → Bool) (a : α) (l : List α)
    (h : ∀ b ∈ l, le a b = true) : insertSortedBy le a l = a :: l := by
  cases l with
  | nil => rfl
  | cons b bs =>
      unfold insertSortedBy
      rw [if_pos (h b (List.mem_cons_self _ _))]

theorem sortBy_eq_self {α : Type} (le : α → α → Bool) (l : List α)
    (hl : l.Pairwise fun x y => le x y = true) : sortBy le l = l := by
  induction l with
  | nil => rfl
  | cons a as ih =>
      obtain ⟨ha, has⟩ := List.pairwise_cons.mp hl
      unfold sortBy
      rw [ih has, insertSortedBy_eq_cons le a as ha]

/-! ## Association lookup lemmas -/

theorem lastAssoc?_append {α : Type} (m1 m2 : List (Int × α)) (k : Int) :
    lastAssoc? (m1 ++ m2) k =
      match lastAssoc? m2 k with
      | some v => some v
      | none => lastAssoc? m1 k := by
  induction m1 with
  | nil => cases h : lastAssoc? m2 k <;> simp [lastAssoc?, h]
  | cons p rest ih =>
      simp only [List.cons_append, lastAssoc?]
      rw [show rest.append m2 = rest ++ m2 from rfl, ih]
      cases h : lastAssoc? m2 k <;> cases h2 : lastAssoc? rest k <;> simp [h, h2]

theorem lastAssoc?_eq_none {α : Type} (m : List (Int × α)) (k : Int)
    (h : ∀ p ∈ m, p.1 ≠ k) : lastAssoc? m k = none := by
  induction m with
  | nil => rfl
  | cons p rest ih =>
      unfold lastAssoc?
      rw [ih (fun q hq => h q (List.mem_cons_of_mem _ hq))]
      have hne : (p.1 == k) = false := by simp [h p (List.mem_cons_self _ _)]
      simp [hne]

theorem lastAssoc?_flatMap {α β : Type} (l : List β) (g : β → List (Int × α)) (key : β → Int)
    (hkeys : ∀ b ∈ l, ∀ p ∈ g b, p.1 = key b)
    (hpw : l.Pairwise fun a b => key a ≠ key b)
    (b : β) (hb : b ∈ l) :
    lastAssoc? (l.flatMap g) (key b) = lastAssoc? (g b) (key b) := by
  induction l with
  | nil => cases hb
  | cons c rest ih =>
      obtain ⟨hc, hrest⟩ := List.pairwise_cons.mp hpw
      rw [List.flatMap_cons, lastAssoc?_append]
      rcases List.mem_cons.mp hb with rfl | hb2
      · have hnone : lastAssoc? (rest.flatMap g) (key b) = none := by
          apply lastAssoc?_eq_none
          intro p hp
          obtain ⟨d, hd, hpd⟩ := List.mem_flatMap.mp hp
          rw [hkeys d (List.mem_cons_of_mem _ hd) p hpd]
          exact (hc d hd).symm
        rw [hnone]
      · have hgc : lastAssoc? (g c) (key b) = none := by
          apply lastAssoc?_eq_none
          intro p hp
          rw [hkeys c (List.mem_cons_self _ _) p hp]
          exact hc b hb2
        rw [ih (fun x hx q hq => hkeys x (List.mem_cons_of_mem _ hx) q hq) hrest hb2]
        cases hv : lastAssoc? (g b) (key b) <;> simp [hv, hgc]

/-- With pairwise-distinct keys, filtering on the key of a member returns
that member alone. -/
theorem filter_key_single {α : Type} (key : α → Int) (l : List α)
    (hpw : l.Pairwise fun a b => key a ≠ key b) (a : α) (ha : a ∈ l) :
    l.filter (fun x => key x == key a) = [a] := by
  induction l with
  | nil => cases ha
  | cons b rest ih =>
      obtain ⟨hb, hrest⟩ := List.pairwise_cons.mp hpw
      rcases List.mem_cons.mp ha with rfl | ha2
      · rw [List.filter_cons]
        simp only [beq_self_eq_true, if_true]
        have hnil : rest.filter (fun x => key x == key a) = [] := by
          rw [List.filter_eq_nil_iff]
          intro x hx
          simp [(hb x hx).symm]
        rw [hnil]
      · rw [List.filter_cons]
        have hne : (key b == key a) = false := by simp [hb a ha2]
        simp only [hne, Bool.false_eq_true, if_false]
        exact ih hrest ha2

/-! ## Batched tag query characterization -/

theorem buildTagsMapAux_lookup (rows : List TagJoinRow) (m : List (Int × List Tag)) (k : Int) :
    (lastAssoc? (buildTagsMapAux m rows) k).getD [] =
      ((lastAssoc? m k).getD []) ++
        ((rows.filter fun r => r.livestreamId == k).map fun r =>
          ({ id := r.tagId, name := r.tagName } : Tag)) := by
  induction rows generalizing m with
  | nil => simp [buildTagsMapAux]
  | cons r rest ih =>
      unfold buildTagsMapAux
      rw [ih]
      rw [List.filter_cons]
      by_cases hk : r.livestreamId = k
      · have hbeq : (r.livestreamId == k) = true := by simp [hk]
        rw [if_pos hbeq]
        have hsingle : lastAssoc?
            (m ++ [(r.livestreamId,
              ((lastAssoc? m r.livestreamId).getD []) ++ [⟨r.tagId, r.tagName⟩])]) k =
            some (((lastAssoc? m r.livestreamId).getD []) ++ [⟨r.tagId, r.tagName⟩]) := by
          rw [lastAssoc?_append]
          have : lastAssoc? [(r.livestreamId,
              ((lastAssoc? m r.livestreamId).getD []) ++ [(⟨r.tagId, r.tagName⟩ : Tag)])] k =
              some (((lastAssoc? m r.livestreamId).getD []) ++ [⟨r.tagId, r.tagName⟩]) := by
            simp [lastAssoc?, hk]
          rw [this]
        rw [hsingle, hk]
        simp [List.append_assoc]
      · have hbeq : ¬((r.livestreamId == k) = true) := by simp [hk]
        rw [if_neg hbeq]
        have hskip : lastAssoc?
            (m ++ [(r.livestreamId,
              ((lastAssoc? m r.livestreamId).getD []) ++ [(⟨r.tagId, r.tagName⟩ : Tag)])]) k =
            lastAssoc? m k := by
          rw [lastAssoc?_append]
          have : lastAssoc? [(r.livestreamId,
              ((lastAssoc? m r.livestreamId).getD []) ++ [(⟨r.tagId, r.tagName⟩ : Tag)])] k =
              none := by
            apply lastAssoc?_eq_none
            intro p hp
            rcases List.mem_cons.mp hp with rfl | hcon
            · exact hk
            · cases hcon
          rw [this]
        rw [hskip]

/-- Under the auto-increment (sorted) association table, the batched tag
query's `ORDER BY livestream_tags.id` returns the nested-loop rows
unchanged. -/
theorem tagJoinRows_eq (db : DB) (ids : List Int)
    (hsorted : db.livestreamTags.Pairwise fun a b => a.id ≤ b.id) :
    tagJoinRows db ids = db.livestreamTags.flatMap fun lt =>
      if ids.contains lt.livestreamId then
        (db.tags.filter fun t => t.id == lt.tagId).map fun t =>
          { livestreamId := lt.livestreamId, tagId := t.id, tagName := t.name,
            linkId := lt.id }
      else [] := by
  unfold tagJoinRows
  apply sortBy_eq_self
  rw [List.flatMap_def, List.pairwise_flatten]
  constructor
  · intro l' hl'
    obtain ⟨lt, hlt, hfl⟩ := List.mem_map.mp hl'
    subst hfl
    apply List.pairwise_of_forall_mem_list
    intro x hx y hy
    by_cases hc : ids.contains lt.livestreamId = true
    · rw [if_pos hc] at hx hy
      obtain ⟨tx, _, hxe⟩ := List.mem_map.mp hx
      obtain ⟨ty, _, hye⟩ := List.mem_map.mp hy
      subst hxe; subst hye
      simp
    · rw [if_neg hc] at hx
      cases hx
  · rw [List.pairwise_map]
    refine hsorted.imp ?_
    intro a b hab x hx y hy
    by_cases hca : ids.contains a.livestreamId = true
    · rw [if_pos hca] at hx
      by_cases hcb : ids.contains b.livestreamId = true
      · rw [if_pos hcb] at hy
        obtain ⟨tx, _, hxe⟩ := List.mem_map.mp hx
        obtain ⟨ty, _, hye⟩ := List.mem_map.mp hy
        subst hxe; subst hye
        simp [hab]
      · rw [if_neg hcb] at hy
        cases hy
    · rw [if_neg hca] at hx
      cases hx

/-- Filtering the joined rows down to one livestream keeps exactly the rows
produced by its own association rows (the target id being in the queried
set). -/
theorem tagJoin_filter (db : DB) (ids : List Int) (L : Int) (hid : ids.contains L = true)
    (links : List LivestreamTagRow) :
    ((links.flatMap fun lt =>
        if ids.contains lt.livestreamId then
          (db.tags.filter fun t => t.id == lt.tagId).map fun t =>
            ({ livestreamId := lt.livestreamId, tagId := t.id, tagName := t.name,
               linkId := lt.id } : TagJoinRow)
        else []).filter fun r => r.livestreamId == L) =
    (links.filter fun lt => lt.livestreamId == L).flatMap fun lt =>
      (db.tags.filter fun t => t.id == lt.tagId).map fun t =>
        ({ livestreamId := lt.livestreamId, tagId := t.id, tagName := t.name,
           linkId := lt.id } : TagJoinRow) := by
  induction links with
  | nil => rfl
  | cons lt rest ih =>
      rw [List.flatMap_cons, List.filter_append, ih, List.filter_cons]
      by_cases hL : lt.livestreamId = L
      · have hc : ids.contains lt.livestreamId = true := by rw [hL]; exact hid
        rw [if_pos hc, if_pos (show (lt.livestreamId == L) = true by simp [hL])]
        rw [List.flatMap_cons]
        congr 1
        rw [List.filter_eq_self]
        intro x hx
        obtain ⟨t, _, hxe⟩ := List.mem_map.mp hx
        subst hxe
        simp [hL]
      · rw [if_neg (show ¬((lt.livestreamId == L) = true) by simp [hL])]
        by_cases hc : ids.contains lt.livestreamId = true
        · rw [if_pos hc]
          have : ((db.tags.filter fun t => t.id == lt.tagId).map fun t =>
              ({ livestreamId := lt.livestreamId, tagId := t.id, tagName := t.name,
                 linkId := lt.id } : TagJoinRow)).filter (fun r => r.livestreamId == L) = [] := by
            rw [List.filter_eq_nil_iff]
            intro x hx
            obtain ⟨t, _, hxe⟩ := List.mem_map.mp hx
            subst hxe
            simp [hL]
          rw [this, List.nil_append]
        · rw [if_neg hc]
          rfl

/-- With unique catalog ids, the per-link inner join equals the per-link
catalog lookup. -/
theorem flatMap_tags_eq_filterMap (db : DB)
    (htu : db.tags.Pairwise fun a b => a.id ≠ b.id) (lts : List LivestreamTagRow) :
    ((lts.flatMap fun lt => (db.tags.filter fun t => t.id == lt.tagId).map fun t =>
        ({ livestreamId := lt.livestreamId, tagId := t.id, tagName := t.name,
           linkId := lt.id } : TagJoinRow)).map fun r =>
        ({ id := r.tagId, name := r.tagName } : Tag)) =
    lts.filterMap fun lt => tagOf db lt.tagId := by
  induction lts with
  | nil => rfl
  | cons lt rest ih =>
      rw [List.flatMap_cons, List.map_append, ih, List.filterMap_cons]
      cases hf : db.tags.find? fun t => t.id == lt.tagId with
      | none =>
          have hnil : db.tags.filter (fun t => t.id == lt.tagId) = [] := by
            rw [find?_eq_head?_filter] at hf
            exact List.head?_eq_none_iff.mp hf
          simp [hnil, tagOf, hf]
      | some t =>
          have hp := List.find?_some hf
          have hpe : t.id = lt.tagId := by simpa using hp
          have ht : t ∈ db.tags := List.mem_of_find?_eq_some hf
          have hfil : db.tags.filter (fun t2 => t2.id == lt.tagId) = [t] := by
            rw [show (fun t2 : TagRow => t2.id == lt.tagId) =
                  (fun t2 : TagRow => t2.id == t.id) from by rw [hpe]]
            exact filter_key_single (fun x : TagRow => x.id) db.tags htu t ht
          simp [hfil, tagOf, hf]

/-- The batched `tagsMap` entry of a queried livestream is exactly its
creation-ordered tag list. -/
theorem tagsMap_lookup (db : DB) (ids : List Int) (hwf : WFRead db) (L : Int)
    (hid : ids.contains L = true) :
    (lastAssoc? (buildTagsMap (tagJoinRows db ids)) L).getD [] = creationTags db L := by
  unfold buildTagsMap
  rw [buildTagsMapAux_lookup]
  simp only [lastAssoc?, Option.getD_none, List.nil_append]
  rw [tagJoinRows_eq db ids hwf.linksSorted]
  rw [tagJoin_filter db ids L hid db.livestreamTags]
  rw [flatMap_tags_eq_filterMap db hwf.tagsUnique]
  rfl

/-- The batched `userMap` entry of a queried owner equals the single-item
identity composition. -/
theorem buildUserMap_lookup (env : Env) (db : DB) (ids : List Int)
    (hwf : WFRead db) (u : UserRow) (hu : u ∈ db.users) (hid : ids.contains u.id = true) :
    ∃ v, lastAssoc? (buildUserMap env db ids) u.id = some v ∧
         fillUserResponse env db u = .ok v := by
  have humem : u ∈ db.users.filter fun x => ids.contains x.id :=
    List.mem_filter.mpr ⟨hu, hid⟩
  have hpwf : (db.users.filter fun x => ids.contains x.id).Pairwise
      (fun a b => a.id ≠ b.id) := hwf.usersUnique.filter _
  obtain ⟨th, hthl⟩ := List.length_eq_one.mp (hwf.themeOnce u hu)
  have hfth : db.themes.find? (fun t => t.userId == u.id) = some th := by
    rw [find?_eq_head?_filter, hthl]; rfl
  have hbm : buildUserMap env db ids =
      (db.users.filter fun x => ids.contains x.id).flatMap fun u2 =>
        ((db.themes.filter fun th2 => th2.userId == u2.id).flatMap fun th2 =>
          (leftJoinIcon db u2.id).map fun img =>
            ({ userId := u2.id, name := u2.name, displayName := u2.displayName,
               description := u2.description, themeId := th2.id, darkMode := th2.darkMode,
               image := img } : UserJoinRow)).map fun r => (r.userId, userFromJoinRow env r) := by
    unfold buildUserMap userJoinRows
    rw [List.map_flatMap]
  have hkeys : ∀ b ∈ (db.users.filter fun x => ids.contains x.id),
      ∀ p ∈ (((db.themes.filter fun th2 => th2.userId == b.id).flatMap fun th2 =>
          (leftJoinIcon db b.id).map fun img =>
            ({ userId := b.id, name := b.name, displayName := b.displayName,
               description := b.description, themeId := th2.id, darkMode := th2.darkMode,
               image := img } : UserJoinRow)).map fun r => (r.userId, userFromJoinRow env r)),
      p.1 = b.id := by
    intro b hb p hp
    obtain ⟨r, hr, hpe⟩ := List.mem_map.mp hp
    subst hpe
    obtain ⟨th2, _, hr2⟩ := List.mem_flatMap.mp hr
    obtain ⟨img, _, hre⟩ := List.mem_map.mp hr2
    subst hre
    rfl
  rw [hbm]
  rw [lastAssoc?_flatMap _ _ (fun x : UserRow => x.id) hkeys hpwf u humem]
  rw [hthl, List.flatMap_cons, List.flatMap_nil, List.append_nil]
  have hic := hwf.iconAtMostOne u hu
  cases hicf : db.icons.filter (fun ic => ic.userId == u.id) with
  | nil =>
      have hlj : leftJoinIcon db u.id = [none] := by
        unfold leftJoinIcon
        rw [hicf]
      rw [hlj]
      refine ⟨userFromJoinRow env
        { userId := u.id, name := u.name, displayName := u.displayName,
          description := u.description, themeId := th.id, darkMode := th.darkMode,
          image := none }, ?_, ?_⟩
      · simp [lastAssoc?]
      · unfold fillUserResponse
        rw [hfth]
        have hfic : db.icons.find? (fun ic => ic.userId == u.id) = none := by
          rw [find?_eq_head?_filter, hicf]; rfl
        rw [hfic]
        rfl
  | cons ic more =>
      have hmore : more = [] := by
        rw [hicf] at hic
        simp at hic
        exact hic
      subst hmore
      have hlj : leftJoinIcon db u.id = [some ic.image] := by
        unfold leftJoinIcon
        rw [hicf]
        rfl
      rw [hlj]
      refine ⟨userFromJoinRow env
        { userId := u.id, name := u.name, displayName := u.displayName,
          description := u.description, themeId := th.id, darkMode := th.darkMode,
          image := some ic.image }, ?_, ?_⟩
      · simp [lastAssoc?]
      · unfold fillUserResponse
        rw [hfth]
        have hfic : db.icons.find? (fun ic2 => ic2.userId == u.id) = some ic := by
          rw [find?_eq_head?_filter, hicf]; rfl
        rw [hfic]
        rfl

/-- Batch composition agrees record by record with single-item composition:
for each fetched record, single-item composition succeeds and returns exactly
the batch-composed aggregate. -/
theorem batch_eq_single (env : Env) (db : DB) (ms : List LivestreamRow)
    (hwf : WFRead db) (hown : ∀ m ∈ ms, ∃ u ∈ db.users, u.id = m.userId) :
    List.Forall₂ (fun m a => fillLivestreamResponse env db m = .ok a) ms
      (batchCompose env db ms) := by
  unfold batchCompose
  rw [List.forall₂_map_right_iff, List.forall₂_same]
  intro m hm
  obtain ⟨u, hu1, hu2⟩ := hown m hm
  have hfu : db.users.find? (fun x => x.id == m.userId) = some u := by
    rw [find?_eq_head?_filter]
    rw [show (fun x : UserRow => x.id == m.userId) = (fun x => x.id == u.id) from by
      funext x; rw [hu2]]
    rw [filter_key_single (fun x : UserRow => x.id) db.users hwf.usersUnique u hu1]
    rfl
  have hidu : (ms.map fun x => x.userId).contains u.id = true := by
    rw [hu2]
    simp only [List.contains_eq_any_beq, List.any_eq_true]
    exact ⟨m.userId, List.mem_map.mpr ⟨m, hm, rfl⟩, by simp⟩
  have hidl : (ms.map fun x => x.id).contains m.id = true := by
    simp only [List.contains_eq_any_beq, List.any_eq_true]
    exact ⟨m.id, List.mem_map.mpr ⟨m, hm, rfl⟩, by simp⟩
  obtain ⟨v, hv1, hv2⟩ := buildUserMap_lookup env db (ms.map fun x => x.userId) hwf u hu1 hidu
  have htagseq := tagsMap_lookup db (ms.map fun x => x.id) hwf m.id hidl
  have hres : resolveTags db (db.livestreamTags.filter fun lt => lt.livestreamId == m.id) =
      .ok (creationTags db m.id) := by
    have hall : ∀ lt ∈ (db.livestreamTags.filter fun lt => lt.livestreamId == m.id),
        (tagOf db lt.tagId).isSome := by
      intro lt hlt
      obtain ⟨t, ht1, ht2⟩ := hwf.linkTagExists lt (List.mem_filter.mp hlt).1
      have hs : (db.tags.find? fun x => x.id == lt.tagId).isSome := by
        rw [List.find?_isSome]
        exact ⟨t, ht1, by simp [ht2]⟩
      simpa [tagOf] using hs
    rw [resolveTags_ok db _ hall]
    rfl
  unfold fillLivestreamResponse
  simp only [hfu, hv2, hres]
  unfold composeOne
  rw [show m.userId = u.id from hu2.symm, hv1, htagseq]
  rfl

/-! ## Claim C6 -/

/-- Claim C6: batch composition over any list of fetched records produces,
for each record, exactly the aggregate that single-item composition produces
for that record in isolation (all fields, owner and tag order included). -/
theorem claim_c6_batch_single (env : Env) (db : DB) (ms : List LivestreamRow)
    (hwf : WFRead db) (hown : ∀ m ∈ ms, ∃ u ∈ db.users, u.id = m.userId) :
    List.Forall₂ (fun m a => fillLivestreamResponse env db m = .ok a) ms
      (batchCompose env db ms) :=
  batch_eq_single env db ms hwf hown

/-- Witness for C6 on a concrete two-record state. -/
theorem claim_c6_batch_single_witness :
    List.Forall₂ (fun m a => fillLivestreamResponse wEnv wBatchDb m = .ok a)
      wBatchDb.livestreams (batchCompose wEnv wBatchDb wBatchDb.livestreams) :=
  claim_c6_batch_single wEnv wBatchDb wBatchDb.livestreams
    ⟨by decide, by decide, by decide, by decide, by decide, by decide⟩
    (by decide)

/-! ## Claim C7 -/

theorem batchCompose_map_id (env : Env) (db : DB) (ms : List LivestreamRow) :
    (batchCompose env db ms).map (fun a => a.id) = ms.map (fun m => m.id) := by
  unfold batchCompose
  rw [List.map_map]
  rfl

theorem batchCompose_tags (env : Env) (db : DB) (ms : List LivestreamRow) (hwf : WFRead db) :
    ∀ a ∈ batchCompose env db ms, a.tags = creationTags db a.id := by
  intro a ha
  unfold batchCompose at ha
  obtain ⟨m, hm, hae⟩ := List.mem_map.mp ha
  subst hae
  have hidl : (ms.map fun x => x.id).contains m.id = true := by
    simp only [List.contains_eq_any_beq, List.any_eq_true]
    exact ⟨m.id, List.mem_map.mpr ⟨m, hm, rfl⟩, by simp⟩
  exact tagsMap_lookup db (ms.map fun x => x.id) hwf m.id hidl

/-- The sort used for `ORDER BY id DESC` yields pairwise non-increasing ids. -/
theorem sortedDesc_ids (l : List LivestreamRow) :
    ((sortBy (fun a b => decide (b.id ≤ a.id)) l).map (fun m => m.id)).Pairwise (· ≥ ·) := by
  have htot : ∀ a b : LivestreamRow,
      (decide (b.id ≤ a.id)) = true ∨ (decide (a.id ≤ b.id)) = true := by
    intro a b
    rcases Int.le_total b.id a.id with h | h
    · left; simpa using h
    · right; simpa using h
  have htrans : ∀ a b c : LivestreamRow, decide (b.id ≤ a.id) = true →
      decide (c.id ≤ b.id) = true → decide (c.id ≤ a.id) = true := by
    intro a b c h1 h2
    simp at h1 h2 ⊢
    omega
  have hs := pairwise_sortBy _ htot htrans l
  rw [List.pairwise_map]
  exact hs.imp (fun h => by simpa using h)

/-- Claim C7: "list all" (with or without a parsed limit) and "search by tag"
all return aggregates ordered by livestream id descending, and every returned
aggregate's tag list is the creation-order association list, never
resorted. -/
theorem claim_c7_ordering (env : Env) (db : DB) (tagName : String) (r : Option String)
    (s : String) (n : Int) (hwf : WFRead db)
    (ht : tagName ≠ "") (hs : goAtoi s = some n) (hn : 0 ≤ n) :
    (∃ l1, searchLivestreams env db "" none = .ok l1 ∧
       (l1.map fun a => a.id).Pairwise (· ≥ ·) ∧
       ∀ a ∈ l1, a.tags = creationTags db a.id) ∧
    (∃ l2, searchLivestreams env db "" (some s) = .ok l2 ∧
       (l2.map fun a => a.id).Pairwise (· ≥ ·) ∧
       ∀ a ∈ l2, a.tags = creationTags db a.id) ∧
    (∃ l3, searchLivestreams env db tagName r = .ok l3 ∧
       (l3.map fun a => a.id).Pairwise (· ≥ ·) ∧
       ∀ a ∈ l3, a.tags = creationTags db a.id) := by
  refine ⟨⟨batchCompose env db (allLivestreamRowsDesc db), ?_, ?_, ?_⟩,
          ⟨batchCompose env db ((allLivestreamRowsDesc db).take n.toNat), ?_, ?_, ?_⟩,
          ⟨batchCompose env db (livestreamRowsByTag db tagName), ?_, ?_, ?_⟩⟩
  · simp [searchLivestreams]
  · rw [batchCompose_map_id]
    exact sortedDesc_ids db.livestreams
  · exact batchCompose_tags env db _ hwf
  · have hn2 : ¬(n < 0) := by omega
    simp [searchLivestreams, hs, hn2]
  · rw [batchCompose_map_id]
    have := sortedDesc_ids db.livestreams
    exact this.sublist ((List.take_sublist _ _).map _)
  · exact batchCompose_tags env db _ hwf
  · simp [searchLivestreams, ht]
  · rw [batchCompose_map_id]
    unfold livestreamRowsByTag
    exact sortedDesc_ids _
  · exact batchCompose_tags env db _ hwf

/-- Witness for C7 on the concrete two-record state, tag filter `"a"` and
limit `"1"`. -/
theorem claim_c7_ordering_witness :
    (∃ l1, searchLivestreams wEnv wBatchDb "" none = .ok l1 ∧
       (l1.map fun a => a.id).Pairwise (· ≥ ·) ∧
       ∀ a ∈ l1, a.tags = creationTags wBatchDb a.id) ∧
    (∃ l2, searchLivestreams wEnv wBatchDb "" (some "1") = .ok l2 ∧
       (l2.map fun a => a.id).Pairwise (· ≥ ·) ∧
       ∀ a ∈ l2, a.tags = creationTags wBatchDb a.id) ∧
    (∃ l3, searchLivestreams wEnv wBatchDb "a" none = .ok l3 ∧
       (l3.map fun a => a.id).Pairwise (· ≥ ·) ∧
       ∀ a ∈ l3, a.tags = creationTags wBatchDb a.id) :=
  claim_c7_ordering wEnv wBatchDb "a" none "1" 1
    ⟨by decide, by decide, by decide, by decide, by decide, by decide⟩
    (by decide) (by decide) (by decide)

/-! ## Claim C8 -/

theorem tagOf_isSome (db : DB) (tid : Int) (h : ∃ t ∈ db.tags, t.id = tid) :
    (tagOf db tid).isSome := by
  obtain ⟨t, ht1, ht2⟩ := h
  have hs : (db.tags.find? fun x => x.id == tid).isSome := by
    rw [List.find?_isSome]
    exact ⟨t, ht1, by simp [ht2]⟩
  simpa [tagOf] using hs

theorem filterMap_length_all_some {α β : Type} (f : α → Option β) (l : List α)
    (h : ∀ x ∈ l, (f x).isSome) : (l.filterMap f).length = l.length := by
  induction l with
  | nil => rfl
  | cons a rest ih =>
      rw [List.filterMap_cons]
      cases hf : f a with
      | none =>
          have := h a (List.mem_cons_self _ _)
          rw [hf] at this
          simp at this
      | some b =>
          simp only [List.length_cons]
          rw [ih (fun x hx => h x (List.mem_cons_of_mem _ hx))]

/-- Single-item composition only reads the user, theme, icon and tag tables
and the record's own association rows. -/
theorem fill_congr (env : Env) (dbA dbB : DB) (m : LivestreamRow)
    (hu : dbA.users = dbB.users) (hth : dbA.themes = dbB.themes)
    (hic : dbA.icons = dbB.icons) (htg : dbA.tags = dbB.tags)
    (hlt : dbA.livestreamTags.filter (fun lt => lt.livestreamId == m.id) =
           dbB.livestreamTags.filter (fun lt => lt.livestreamId == m.id)) :
    fillLivestreamResponse env dbA m = fillLivestreamResponse env dbB m := by
  have hfu : ∀ u, fillUserResponse env dbA u = fillUserResponse env dbB u := by
    intro u
    unfold fillUserResponse
    rw [hth, hic]
  have hrt : ∀ lts, resolveTags dbA lts = resolveTags dbB lts := by
    intro lts
    induction lts with
    | nil => rfl
    | cons lt rest ih =>
        unfold resolveTags
        rw [htg, ih]
  unfold fillLivestreamResponse
  rw [hu, hlt]
  simp only [hfu, hrt]

/-- Claim C8: a successful booking with tag list L appends exactly one
association row per element of L in request order; the returned aggregate's
tag list has length |L| and resolves L in order; reading the created
aggregate back yields the same tag list; and re-reading after any further
booking operation still yields the same list. -/
theorem claim_c8_tag_rows (env : Env) (db : DB) (uid : Int) (req : ReserveReq)
    (ls : Livestream)
    (hwf : WFRead db) (hu : ∃ u ∈ db.users, u.id = uid)
    (htags : ∀ tid ∈ req.tags, ∃ t ∈ db.tags, t.id = tid)
    (hfreshL : ∀ l ∈ db.livestreams, l.id ≠ db.nextLivestreamId)
    (hfreshT : ∀ lt ∈ db.livestreamTags, lt.livestreamId ≠ db.nextLivestreamId)
    (h : (reserve noFault env db uid req).1 = .ok ls) :
    (reserve noFault env db uid req).2.livestreamTags =
      db.livestreamTags ++ tagRowsFrom db.nextLivestreamTagId db.nextLivestreamId req.tags ∧
    ls.tags = req.tags.filterMap (tagOf db) ∧
    ls.tags.length = req.tags.length ∧
    (getLivestream env (reserve noFault env db uid req).2 ls.id).map (fun a => a.tags) =
      .ok ls.tags ∧
    (∀ (o2 : FaultOracle) (uid2 : Int) (req2 : ReserveReq),
      (getLivestream env (reserve o2 env (reserve noFault env db uid req).2 uid2 req2).2
          ls.id).map (fun a => a.tags) = .ok ls.tags) := by
  obtain ⟨hst, hfill⟩ := reserve_ok_state noFault env db uid req ls h
  obtain ⟨ls0, hls0, hid0, htags0⟩ := fill_post_ok env db uid req hwf hu htags hfreshT
  have hlse : ls = ls0 := by
    rw [hfill] at hls0
    simpa using hls0
  have hlid : ls.id = db.nextLivestreamId := by rw [hlse]; exact hid0
  have hfindpost : (reservePost db uid req).livestreams.find?
      (fun l => l.id == ls.id) = some (newLsRow db uid req) := by
    rw [reservePost_livestreams, List.find?_append]
    have h1 : db.livestreams.find? (fun l => l.id == ls.id) = none := by
      rw [List.find?_eq_none]
      intro x hx
      simp [hlid, hfreshL x hx]
    have h2 : [newLsRow db uid req].find? (fun l => l.id == ls.id) =
        some (newLsRow db uid req) := by
      have hpred : (db.nextLivestreamId == ls.id) = true := by simp [hlid]
      simp [List.find?_cons, hpred]
    rw [h1, h2]
    rfl
  have hget : (getLivestream env (reservePost db uid req) ls.id).map (fun a => a.tags) =
      .ok ls.tags := by
    unfold getLivestream
    rw [hfindpost]
    dsimp only
    rw [hfill]
    rfl
  refine ⟨?_, ?_, ?_, ?_, ?_⟩
  · rw [hst, reservePost_livestreamTags]
  · rw [hlse]; exact htags0
  · rw [hlse, htags0]
    exact filterMap_length_all_some _ _ (fun x hx => tagOf_isSome db x (htags x hx))
  · rw [hst]; exact hget
  · intro o2 uid2 req2
    rw [hst]
    rcases reserve_state_cases o2 env (reservePost db uid req) uid2 req2 with hc | ⟨hc, _⟩
    · rw [hc]; exact hget
    · rw [hc]
      have hfind2 : (reservePost (reservePost db uid req) uid2 req2).livestreams.find?
          (fun l => l.id == ls.id) = some (newLsRow db uid req) := by
        rw [reservePost_livestreams, List.find?_append, hfindpost]
        rfl
      have hfill2 : fillLivestreamResponse env (reservePost (reservePost db uid req) uid2 req2)
          (newLsRow db uid req) = .ok ls := by
        rw [← hfill]
        apply fill_congr
        · rfl
        · rfl
        · rfl
        · rfl
        · rw [reservePost_livestreamTags (reservePost db uid req) uid2 req2,
              List.filter_append]
          have hne : (tagRowsFrom (reservePost db uid req).nextLivestreamTagId
              (reservePost db uid req).nextLivestreamId req2.tags).filter
              (fun lt => lt.livestreamId == (newLsRow db uid req).id) = [] := by
            apply tagRowsFrom_filter_ne
            rw [reservePost_nextLivestreamId, newLsRow_id]
            omega
          rw [hne, List.append_nil]
      unfold getLivestream
      rw [hfind2]
      dsimp only
      rw [hfill2]
      rfl

/-- Witness for C8: the concrete booking of the free bucket with tag list
`[3]`. -/
theorem claim_c8_tag_rows_witness :
    (reserve noFault wEnv wSlotsDb 1 wReqOne).2.livestreamTags =
      wSlotsDb.livestreamTags ++
        tagRowsFrom wSlotsDb.nextLivestreamTagId wSlotsDb.nextLivestreamId wReqOne.tags ∧
    wLs.tags = wReqOne.tags.filterMap (tagOf wSlotsDb) ∧
    wLs.tags.length = wReqOne.tags.length ∧
    (getLivestream wEnv (reserve noFault wEnv wSlotsDb 1 wReqOne).2 wLs.id).map
      (fun a => a.tags) = .ok wLs.tags ∧
    (∀ (o2 : FaultOracle) (uid2 : Int) (req2 : ReserveReq),
      (getLivestream wEnv (reserve o2 wEnv (reserve noFault wEnv wSlotsDb 1 wReqOne).2
          uid2 req2).2 wLs.id).map (fun a => a.tags) = .ok wLs.tags) :=
  claim_c8_tag_rows wEnv wSlotsDb 1 wReqOne wLs
    ⟨by decide, by decide, by decide, by decide, by decide, by decide⟩
    (by decide) (by decide) (by decide) (by decide) (by decide)

/-! ## Claim C9 -/

/-- Claim C9 counterexample: with a tag filter, the limit parameter is
ignored.  On the concrete state with two livestreams tagged "a", a search for
tag "a" with limit "1" returns 2 aggregates, not at most 1. -/
theorem claim_c9_counterexample :
    (searchLivestreams wEnv wBatchDb "a" (some "1")).map (fun l => l.length) = .ok 2 ∧
    ¬(2 ≤ 1) :=
  ⟨by decide, by decide⟩

/-- Claim C9 (amended): a result-count limit is honored only when no tag-name
filter is supplied (then at most L aggregates are returned, for a parsed
non-negative L); when a tag-name filter is supplied the limit parameter is
ignored entirely and the result is independent of it. -/
theorem claim_c9_amended (env : Env) (db : DB) (s : String) (n : Int)
    (hs : goAtoi s = some n) (hn : 0 ≤ n) :
    (∃ l, searchLivestreams env db "" (some s) = .ok l ∧ l.length ≤ n.toNat) ∧
    (∀ (t : String) (r r2 : Option String), t ≠ "" →
      searchLivestreams env db t r = searchLivestreams env db t r2) := by
  constructor
  · refine ⟨batchCompose env db ((allLivestreamRowsDesc db).take n.toNat), ?_, ?_⟩
    · have hn2 : ¬(n < 0) := by omega
      simp [searchLivestreams, hs, hn2]
    · unfold batchCompose
      rw [List.length_map, List.length_take]
      exact Nat.min_le_left _ _
  · intro t r r2 htne
    simp [searchLivestreams, htne]

/-- Witness for the amended C9 at limit "1" on the two-record state. -/
theorem claim_c9_amended_witness :
    (∃ l, searchLivestreams wEnv wBatchDb "" (some "1") = .ok l ∧
      l.length ≤ (1 : Int).toNat) ∧
    (∀ (t : String) (r r2 : Option String), t ≠ "" →
      searchLivestreams wEnv wBatchDb t r = searchLivestreams wEnv wBatchDb t r2) :=
  claim_c9_amended wEnv wBatchDb "1" 1 (by decide) (by decide)

/-! ## Claim C10 -/

/-- Claim C10: a search without a tag filter whose limit parameter does not
parse as an integer is rejected with the 400 "limit query parameter must be
integer" error (in the source this happens before the livestream query runs),
and no aggregates are returned. -/
theorem claim_c10_bad_limit (env : Env) (db : DB) (s : String)
    (hs : goAtoi s = none) :
    searchLivestreams env db "" (some s) =
      .error (.badRequest "limit query parameter must be integer") := by
  simp [searchLivestreams, hs]

/-- Witness for C10 with the non-numeric limit "abc". -/
theorem claim_c10_bad_limit_witness :
    searchLivestreams wEnv wBatchDb "" (some "abc") =
      .error (.badRequest "limit query parameter must be integer") :=
  claim_c10_bad_limit wEnv wBatchDb "abc" (by decide)
